import Mathlib

/-!
# minidro: the `Caliper` packet acquisition engine and field decoder

A shallow embedding of `src/Caliper.cpp` / `src/Caliper.h`.

* `uint32_t` values are natural numbers; the one place where 32-bit overflow
  matters (subtracting two `micros()` readings) is written with an explicit
  `% 2 ^ 32` (`sub32`).
* The `FastPin` collaborator and the Arduino primitives `micros()` and
  `delay()` are not part of the sources; they are taken as a parameter, the
  `Line`: the successive readings of `micros()` and the successive results of
  `m_dataPin.isLow()`.  Blocking waits return nothing, they are only recorded.
* `Sim` threads the line, the two read cursors and the record of every effect
  through the code (explicit state passing).
* The `do ... while` of phase synchronisation may run for ever; it takes fuel,
  one unit per iteration.  Everything after it is a total function.
-/

namespace Minidro

/-! ## The collaborators -/

/-- One effect performed by `update()` on its collaborators. -/
inductive Event where
  | waitHigh
  | waitLow
  | waitRisingEdge
  | isLow (low : Bool)
  | micros (t : Nat)
  | delay (ms : Nat)
  deriving DecidableEq

/-- A simulated line: `clock k` is what the `k`-th call of `micros()` reads (taken
modulo `2 ^ 32`), `dataLow k` is what the `k`-th call of `m_dataPin.isLow()` returns. -/
structure Line where
  clock : Nat → Nat
  dataLow : Nat → Bool

/-- The world threaded through `update()`: the line, how many `micros()` and `isLow()`
calls were made so far, and every effect so far, newest first. -/
structure Sim where
  line : Line
  tpos : Nat
  dpos : Nat
  log : List Event

/-- A fresh world over a line: nothing read, nothing recorded. -/
def Sim.start (l : Line) : Sim := { line := l, tpos := 0, dpos := 0, log := [] }

/-- Models `m_clockPin.waitHigh()`. -/
def Sim.waitHigh (s : Sim) : Sim := { s with log := Event.waitHigh :: s.log }

/-- Models `m_clockPin.waitLow()`. -/
def Sim.waitLow (s : Sim) : Sim := { s with log := Event.waitLow :: s.log }

/-- Models `m_clockPin.waitRisingEdge()`. -/
def Sim.waitRisingEdge (s : Sim) : Sim := { s with log := Event.waitRisingEdge :: s.log }

/-- Models `delay(ms)`. -/
def Sim.delay (s : Sim) (ms : Nat) : Sim := { s with log := Event.delay ms :: s.log }

/-- Models `micros()`: the next reading of the 32-bit microsecond counter. -/
def Sim.micros (s : Sim) : Nat × Sim :=
  (s.line.clock s.tpos % 2 ^ 32,
   { s with tpos := s.tpos + 1, log := Event.micros (s.line.clock s.tpos % 2 ^ 32) :: s.log })

/-- Models `m_dataPin.isLow()`: the next level of the data line. -/
def Sim.isLow (s : Sim) : Bool × Sim :=
  (s.line.dataLow s.dpos,
   { s with dpos := s.dpos + 1, log := Event.isLow (s.line.dataLow s.dpos) :: s.log })

/-- Subtraction of two `uint32_t` values, as C++ computes it. -/
def sub32 (a b : Nat) : Nat := (a + 2 ^ 32 - b) % 2 ^ 32

/-! ## The engine -/

/-- The data members of `class Caliper`. -/
structure Caliper where
  m_clockPin : Nat
  m_dataPin : Nat
  m_packet : Nat

/-- The constructor `Caliper::Caliper(clockPin, dataPin)`. -/
def Caliper.new (clockPin dataPin : Nat) : Caliper :=
  { m_clockPin := clockPin, m_dataPin := dataPin, m_packet := 0 }

/-- The constant `const uint32_t msb = 1UL<<29;` of `update()`. -/
def msb : Nat := 1 <<< 29

/-- The phase-synchronisation loop of `update()`:
`do { waitHigh(); start = micros(); waitLow(); ticks = micros(); } while (ticks - start < 800);`
One unit of fuel per iteration; on exit it gives `ticks` and the world. -/
def syncLoop : Nat → Sim → Option (Nat × Sim)
  | 0, _ => none
  | fuel + 1, s =>
    let s1 := s.waitHigh
    let (start, s2) := s1.micros
    let s3 := s2.waitLow
    let (ticks, s4) := s3.micros
    if sub32 ticks start < 800 then syncLoop fuel s4 else some (ticks, s4)

/-- The sampling loop of `update()`, with `n` iterations left:
`waitRisingEdge(); if (m_dataPin.isLow()) value |= msb; value >>= 1;` -/
def sampleLoop : Nat → Sim → Nat → Nat × Sim
  | 0, s, value => (value, s)
  | n + 1, s, value =>
    let s1 := s.waitRisingEdge
    let (low, s2) := s1.isLow
    let value := if low then value ||| msb else value
    let value := value >>> 1
    sampleLoop n s2 value

/-- What a call of `update()` leaves behind: its return value, the engine and the world. -/
structure Outcome where
  ok : Bool
  cal : Caliper
  sim : Sim

/-- The retry loop `for (int retry=0; retry<4; retry++) { ... }` of `update()` with `n`
iterations left, followed by the give-up code after the loop. `ticks` is the variable
of that name on entry to the iteration. -/
def retryLoop : Nat → Caliper → Sim → Nat → Outcome
  | 0, c, s, _ => { ok := false, cal := { c with m_packet := 0 }, sim := s }
  | n + 1, c, s, ticks =>
    let (value, s1) := sampleLoop 29 s 0
    let (now, s2) := s1.micros
    let ticks := sub32 now ticks
    if ticks < 900 then
      { ok := true, cal := { c with m_packet := value &&& (msb - 1) }, sim := s2 }
    else
      let s3 := s2.delay 10
      let s4 := s3.waitLow
      let (ticks, s5) := s4.micros
      retryLoop n c s5 ticks

/-- The member function `bool Caliper::update()`; `none` when the fuel of the
synchronisation loop runs out. -/
def Caliper.update (c : Caliper) (fuel : Nat) (s : Sim) : Option Outcome :=
  match syncLoop fuel s with
  | none => none
  | some (ticks, s1) => some (retryLoop 4 c s1 ticks)

/-- The member function `Caliper::getPacket()`. -/
def Caliper.getPacket (c : Caliper) : Nat := c.m_packet

/-- The member function `Caliper::getDigitsBCD()`. -/
def Caliper.getDigitsBCD (c : Caliper) : Nat := c.m_packet &&& 0xFFFFF

/-- The member function `Caliper::isNegative()`. -/
def Caliper.isNegative (c : Caliper) : Bool := (c.m_packet &&& 1 <<< 24) != 0

/-- The member function `Caliper::isMetric()`. -/
def Caliper.isMetric (c : Caliper) : Bool := (c.m_packet &&& 1 <<< 26) != 0

/-- The member function `Caliper::isInch()`. -/
def Caliper.isInch (c : Caliper) : Bool := !c.isMetric

/-- The member function `Caliper::isHalf()`. -/
def Caliper.isHalf (c : Caliper) : Bool := (c.m_packet &&& 1 <<< 25) != 0

/-! ## Reading a line trace -/

/-- The `k`-th reading of `micros()` on the line of `s`, as a `uint32_t`. -/
def reading (s : Sim) (k : Nat) : Nat := s.line.clock k % 2 ^ 32

/-- Number of `delay(10)` calls recorded in the world. -/
def delays (s : Sim) : Nat := s.log.count (Event.delay 10)

/-- Number of `waitRisingEdge()` calls recorded in the world. -/
def risingEdges (s : Sim) : Nat := s.log.count Event.waitRisingEdge

/-- Number of `waitLow()` calls recorded in the world. -/
def lowWaits (s : Sim) : Nat := s.log.count Event.waitLow

/-- With `s` the world and `ticks` the start-of-packet timestamp on entry to the retry loop:
the start-of-packet timestamp of attempt `j` (counted from 0) when all earlier attempts
overran. Attempt 0 starts at `ticks`; a later attempt at the reading taken right after the
recovery `waitLow()`. -/
def attemptStart (s : Sim) (ticks j : Nat) : Nat :=
  if j = 0 then ticks else reading s (s.tpos + 2 * j - 1)

/-- The end-of-sampling timestamp of attempt `j` when all earlier attempts overran. -/
def attemptEnd (s : Sim) (j : Nat) : Nat := reading s (s.tpos + 2 * j)

/-- The elapsed time of attempt `j`: end-of-sampling minus start-of-packet, in `uint32_t`. -/
def attemptElapsed (s : Sim) (ticks j : Nat) : Nat :=
  sub32 (attemptEnd s j) (attemptStart s ticks j)

/-- Whether the data line is low on rising edge `i` of attempt `j`, when all earlier
attempts overran (each attempt samples 29 edges). -/
def attemptLow (s : Sim) (j i : Nat) : Bool := s.line.dataLow (s.dpos + 29 * j + i)

/-- The world after one overrunning attempt: 29 samples, the end-of-sampling `micros()`,
`delay(10)`, `waitLow()` and the `micros()` that restarts the timing. -/
def afterOverrun (s : Sim) : Sim :=
  ((((sampleLoop 29 s 0).2.micros.2).delay 10).waitLow).micros.2

/-- The world after one iteration of the synchronisation loop:
`waitHigh()`, `micros()`, `waitLow()`, `micros()`. -/
def afterSync (s : Sim) : Sim := s.waitHigh.micros.2.waitLow.micros.2

/-- The timestamp T0 taken when the clock went high, in the `n`-th high-period that the
synchronisation loop observes from world `s` (counted from 0). -/
def highStart (s : Sim) (n : Nat) : Nat := reading s (s.tpos + 2 * n)

/-- The timestamp T1 taken when the clock went low again, in the `n`-th high-period. -/
def highEnd (s : Sim) (n : Nat) : Nat := reading s (s.tpos + 2 * n + 1)

/-- The length `T1 - T0` of the `n`-th high-period, in `uint32_t`. -/
def highPeriod (s : Sim) (n : Nat) : Nat := sub32 (highEnd s n) (highStart s n)

/-! ## Simulated lines used as concrete inputs -/

/-- A line whose `micros()` readings are the entries of `ts` in turn (0 once they are
used up) and whose data line is low on the `k`-th sample exactly when `low k`. -/
def traceLine (ts : List Nat) (low : Nat → Bool) : Line :=
  { clock := fun k => ts.getD k 0, dataLow := low }

/-- High-period of 800 us, sampling done 880 us later, data low only on edge 0. -/
def firstLowLine : Line := traceLine [1000, 1800, 2680] (fun k => k == 0)

/-- High-period of 800 us, sampling done 880 us later, data low only on edge 28, the
29th rising edge. -/
def lastLowLine : Line := traceLine [1000, 1800, 2680] (fun k => k == 28)

/-- A line on which every reading is 1000 us after the previous one: the first
high-period qualifies and every sampling attempt overruns. The data line is always low. -/
def slowLine : Line := { clock := fun k => 1000 * k, dataLow := fun _ => true }

/-- High-period of 800 us; the first attempt takes 950 us, the second one 850 us. The
data line is low on the even samples. -/
def retryLine : Line := traceLine [0, 800, 1750, 12000, 12850] (fun k => k % 2 == 0)

/-- High-period of 800 us; the first attempt takes exactly 899 us. -/
def line899 : Line := traceLine [1000, 1800, 2699] (fun k => k % 3 == 0)

/-- High-period of 800 us; the first attempt takes exactly 900 us, the second 600 us. -/
def line900 : Line := traceLine [1000, 1800, 2700, 13000, 13600] (fun k => k % 3 == 0)

/-- A high-period of exactly 799 us, then one of exactly 800 us, then sampling done
880 us later. -/
def boundaryLine : Line := traceLine [0, 799, 5000, 5800, 6680] (fun k => k % 5 == 0)

/-- High-period of exactly 800 us, sampling done 880 us later; the data line is low on
edge `k` exactly when bit `k` of `0x5012345` is set: digits `0x12345`, negative flag
(edge 24) low, half flag (edge 25) high, metric flag (edge 26) low. -/
def flagsLine : Line := traceLine [1000, 1800, 2680] (fun k => (0x5012345 : Nat).testBit k)

/-- The counter wraps during the high-period: `T0 = 2 ^ 32 - 100`, `T1 = 700`, a true
duration of 800 us; sampling is done 880 us after `T1`. -/
def wrapLine : Line := traceLine [2 ^ 32 - 100, 700, 1580] (fun k => k % 2 == 0)

/-- The counter wraps during the first sampling attempt: start-of-packet timestamp
`2 ^ 32 - 500`, end-of-sampling reading 380, a true duration of 880 us. -/
def wrapAttemptLine : Line :=
  traceLine [2 ^ 32 - 1300, 2 ^ 32 - 500, 380] (fun k => k % 2 == 0)

/-- High-period of 800 us, sampling done 880 us later, data line high on every edge. -/
def highLine : Line := traceLine [1000, 1800, 2680] (fun _ => false)

/-- The synthetic packet of the round-trip property, as the property writes it:
`d | (neg << 24) | (half << 25) | (metric << 26)`. -/
def encodePacket (d : Nat) (neg half metric : Bool) : Nat :=
  d ||| (neg.toNat <<< 24) ||| (half.toNat <<< 25) ||| (metric.toNat <<< 26)

/-- The reserved bit positions of a packet: 20 to 23, and 27. -/
def reservedBits : List Nat := [20, 21, 22, 23, 27]

/-! ## The sampling loop -/

@[simp] theorem sampleLoop_zero (s : Sim) (v : Nat) : sampleLoop 0 s v = (v, s) := rfl

theorem sampleLoop_succ (n : Nat) (s : Sim) (v : Nat) :
    sampleLoop (n + 1) s v =
      sampleLoop n s.waitRisingEdge.isLow.2
        ((if s.line.dataLow s.dpos then v ||| msb else v) >>> 1) := rfl

@[simp] theorem sampleLoop_line (n : Nat) (s : Sim) (v : Nat) :
    (sampleLoop n s v).2.line = s.line := by
  induction n generalizing s v with
  | zero => rfl
  | succ n ih => rw [sampleLoop_succ, ih]; rfl

@[simp] theorem sampleLoop_tpos (n : Nat) (s : Sim) (v : Nat) :
    (sampleLoop n s v).2.tpos = s.tpos := by
  induction n generalizing s v with
  | zero => rfl
  | succ n ih => rw [sampleLoop_succ, ih]; rfl

@[simp] theorem sampleLoop_dpos (n : Nat) (s : Sim) (v : Nat) :
    (sampleLoop n s v).2.dpos = s.dpos + n := by
  induction n generalizing s v with
  | zero => rfl
  | succ n ih =>
    rw [sampleLoop_succ, ih]
    simp only [Sim.isLow, Sim.waitRisingEdge]
    omega

theorem sampleLoop_count_delay (n : Nat) (s : Sim) (v ms : Nat) :
    (sampleLoop n s v).2.log.count (Event.delay ms) = s.log.count (Event.delay ms) := by
  induction n generalizing s v with
  | zero => rfl
  | succ n ih =>
    rw [sampleLoop_succ, ih]
    simp [Sim.isLow, Sim.waitRisingEdge]

theorem sampleLoop_count_rising (n : Nat) (s : Sim) (v : Nat) :
    (sampleLoop n s v).2.log.count Event.waitRisingEdge
      = s.log.count Event.waitRisingEdge + n := by
  induction n generalizing s v with
  | zero => rfl
  | succ n ih =>
    rw [sampleLoop_succ, ih]
    simp [Sim.isLow, Sim.waitRisingEdge]
    omega

theorem msb_eq : msb = 2 ^ 29 := by decide

theorem testBit_msb (j : Nat) : msb.testBit j = decide (29 = j) := by
  rw [msb_eq, Nat.testBit_two_pow]

/-- Bits of the accumulator after `n` iterations started from `v`: the old bits move down
by `n`, and the sample of iteration `m` sits at position `29 - n + m`. -/
theorem sampleLoop_testBit (n : Nat) (s : Sim) (v i : Nat) :
    (sampleLoop n s v).1.testBit i =
      (v.testBit (i + n) ||
        (decide (29 ≤ i + n) && decide (i < 29) && s.line.dataLow (s.dpos + (i + n - 29)))) := by
  induction n generalizing s v with
  | zero =>
    by_cases h : i < 29
    · have : ¬ 29 ≤ i := by omega
      simp [this]
    · simp [h]
  | succ n ih =>
    rw [sampleLoop_succ, ih]
    have hl : s.waitRisingEdge.isLow.2.line = s.line := rfl
    have hd : s.waitRisingEdge.isLow.2.dpos = s.dpos + 1 := rfl
    rw [hl, hd, Nat.testBit_shiftRight]
    have e1 : 1 + (i + n) = i + (n + 1) := by omega
    rw [e1]
    by_cases h28 : i + n = 28
    · have a1 : ¬ 29 ≤ i + n := by omega
      have a2 : 29 ≤ i + (n + 1) := by omega
      have a3 : i < 29 := by omega
      have a4 : i + (n + 1) - 29 = 0 := by omega
      have a5 : i + (n + 1) = 29 := by omega
      cases hb : s.line.dataLow s.dpos <;>
        simp [a1, a2, a3, a4, a5, hb, Nat.testBit_or, testBit_msb]
    · by_cases h29 : 29 ≤ i + n
      · have a2 : 29 ≤ i + (n + 1) := by omega
        have a4 : s.dpos + 1 + (i + n - 29) = s.dpos + (i + (n + 1) - 29) := by omega
        have a5 : ¬ (29 = i + (n + 1)) := by omega
        cases hb : s.line.dataLow s.dpos <;>
          simp [h29, a2, a4, a5, Nat.testBit_or, testBit_msb]
      · have a2 : ¬ 29 ≤ i + (n + 1) := by omega
        have a5 : ¬ (29 = i + (n + 1)) := by omega
        cases hb : s.line.dataLow s.dpos <;>
          simp [h29, a2, a5, Nat.testBit_or, testBit_msb]

/-- The value a complete 29-sample attempt leaves in `value`: sample `i` is bit `i`. -/
theorem sampleLoop_full_testBit (s : Sim) (i : Nat) :
    (sampleLoop 29 s 0).1.testBit i = (decide (i < 29) && s.line.dataLow (s.dpos + i)) := by
  rw [sampleLoop_testBit]
  simp

/-- The stored value `value & (msb - 1)` of a complete attempt, bit by bit. -/
theorem masked_testBit (s : Sim) (i : Nat) :
    ((sampleLoop 29 s 0).1 &&& (msb - 1)).testBit i
      = (decide (i < 29) && s.line.dataLow (s.dpos + i)) := by
  have hm : msb - 1 = 2 ^ 29 - 1 := by decide
  rw [Nat.testBit_and, hm, Nat.testBit_two_pow_sub_one, sampleLoop_full_testBit]
  cases decide (i < 29) <;> simp

/-! ## The retry loop -/

theorem retryLoop_zero (c : Caliper) (s : Sim) (t : Nat) :
    retryLoop 0 c s t = { ok := false, cal := { c with m_packet := 0 }, sim := s } := rfl

/-- One iteration whose elapsed time is below 900: store and return `true`. -/
theorem retryLoop_accept (n : Nat) (c : Caliper) (s : Sim) (t : Nat)
    (h : sub32 (reading s s.tpos) t < 900) :
    retryLoop (n + 1) c s t =
      { ok := true, cal := { c with m_packet := (sampleLoop 29 s 0).1 &&& (msb - 1) },
        sim := (sampleLoop 29 s 0).2.micros.2 } := by
  have h1 : sub32 ((sampleLoop 29 s 0).2.micros.1) t < 900 := by
    simpa [Sim.micros, reading] using h
  rw [retryLoop]
  simp only [h1, if_true]

/-- One iteration whose elapsed time is 900 or more: recover and go round again. -/
theorem retryLoop_overrun (n : Nat) (c : Caliper) (s : Sim) (t : Nat)
    (h : 900 ≤ sub32 (reading s s.tpos) t) :
    retryLoop (n + 1) c s t = retryLoop n c (afterOverrun s) (reading s (s.tpos + 1)) := by
  have h1 : ¬ sub32 ((sampleLoop 29 s 0).2.micros.1) t < 900 := by
    simpa [Sim.micros, reading] using h
  have h2 : ((((sampleLoop 29 s 0).2.micros.2).delay 10).waitLow).micros.1
      = reading s (s.tpos + 1) := by
    simp [Sim.micros, Sim.delay, Sim.waitLow, reading]
  rw [retryLoop]
  simp only [h1, if_false]
  rw [h2]
  rfl

@[simp] theorem afterOverrun_line (s : Sim) : (afterOverrun s).line = s.line := by
  simp [afterOverrun, Sim.micros, Sim.delay, Sim.waitLow]

@[simp] theorem afterOverrun_tpos (s : Sim) : (afterOverrun s).tpos = s.tpos + 2 := by
  simp [afterOverrun, Sim.micros, Sim.delay, Sim.waitLow]

@[simp] theorem afterOverrun_dpos (s : Sim) : (afterOverrun s).dpos = s.dpos + 29 := by
  simp [afterOverrun, Sim.micros, Sim.delay, Sim.waitLow]

theorem afterOverrun_delays (s : Sim) : delays (afterOverrun s) = delays s + 1 := by
  simp [delays, afterOverrun, Sim.micros, Sim.delay, Sim.waitLow, sampleLoop_count_delay]

theorem afterOverrun_risingEdges (s : Sim) :
    risingEdges (afterOverrun s) = risingEdges s + 29 := by
  simp [risingEdges, afterOverrun, Sim.micros, Sim.delay, Sim.waitLow,
    sampleLoop_count_rising]

@[simp] theorem iterate_afterOverrun_line (k : Nat) (s : Sim) :
    (afterOverrun^[k] s).line = s.line := by
  induction k generalizing s with
  | zero => rfl
  | succ k ih => rw [Function.iterate_succ_apply, ih, afterOverrun_line]

@[simp] theorem iterate_afterOverrun_tpos (k : Nat) (s : Sim) :
    (afterOverrun^[k] s).tpos = s.tpos + 2 * k := by
  induction k generalizing s with
  | zero => rfl
  | succ k ih => rw [Function.iterate_succ_apply, ih, afterOverrun_tpos]; omega

@[simp] theorem iterate_afterOverrun_dpos (k : Nat) (s : Sim) :
    (afterOverrun^[k] s).dpos = s.dpos + 29 * k := by
  induction k generalizing s with
  | zero => rfl
  | succ k ih => rw [Function.iterate_succ_apply, ih, afterOverrun_dpos]; omega

theorem iterate_afterOverrun_delays (k : Nat) (s : Sim) :
    delays (afterOverrun^[k] s) = delays s + k := by
  induction k generalizing s with
  | zero => rfl
  | succ k ih => rw [Function.iterate_succ_apply, ih, afterOverrun_delays]; omega

theorem iterate_afterOverrun_risingEdges (k : Nat) (s : Sim) :
    risingEdges (afterOverrun^[k] s) = risingEdges s + 29 * k := by
  induction k generalizing s with
  | zero => rfl
  | succ k ih => rw [Function.iterate_succ_apply, ih, afterOverrun_risingEdges]; omega

theorem attemptElapsed_zero (s : Sim) (t : Nat) :
    attemptElapsed s t 0 = sub32 (reading s s.tpos) t := by
  simp [attemptElapsed, attemptEnd, attemptStart]

theorem attemptStart_afterOverrun (s : Sim) (t j : Nat) :
    attemptStart (afterOverrun s) (reading s (s.tpos + 1)) j = attemptStart s t (j + 1) := by
  unfold attemptStart
  by_cases hj : j = 0
  · subst hj; simp
  · have e : s.tpos + 2 + 2 * j - 1 = s.tpos + 2 * (j + 1) - 1 := by omega
    simp [hj, reading, e]

theorem attemptElapsed_afterOverrun (s : Sim) (t j : Nat) :
    attemptElapsed (afterOverrun s) (reading s (s.tpos + 1)) j
      = attemptElapsed s t (j + 1) := by
  unfold attemptElapsed
  rw [attemptStart_afterOverrun s t j]
  have e : s.tpos + 2 + 2 * j = s.tpos + 2 * (j + 1) := by omega
  simp [attemptEnd, reading, e]

/-- After `k` overrunning attempts the loop is where it would be if started, with `k`
fewer iterations left, in the world after `k` recoveries and with the start-of-packet
timestamp of attempt `k`. -/
theorem retryLoop_overruns (k n : Nat) (c : Caliper) (s : Sim) (t : Nat)
    (h : ∀ j, j < k → 900 ≤ attemptElapsed s t j) :
    retryLoop (k + n) c s t = retryLoop n c (afterOverrun^[k] s) (attemptStart s t k) := by
  induction k generalizing s t with
  | zero => simp [attemptStart]
  | succ k ih =>
    have h0 : 900 ≤ sub32 (reading s s.tpos) t := by
      rw [← attemptElapsed_zero]; exact h 0 (Nat.succ_pos k)
    have e : k + 1 + n = (k + n) + 1 := by omega
    rw [e, retryLoop_overrun _ _ _ _ h0, ih, attemptStart_afterOverrun s t k,
      Function.iterate_succ_apply]
    intro j hj
    rw [attemptElapsed_afterOverrun s t j]
    exact h (j + 1) (Nat.succ_lt_succ hj)

/-- How the retry loop ends: either every one of its `n` attempts overran, or some attempt
`k` was the first one below 900 and its masked value was stored. -/
theorem retryLoop_cases (n : Nat) (c : Caliper) (s : Sim) (t : Nat) :
    ((∀ j, j < n → 900 ≤ attemptElapsed s t j) ∧
      retryLoop n c s t =
        { ok := false, cal := { c with m_packet := 0 }, sim := afterOverrun^[n] s }) ∨
    (∃ k, k < n ∧ (∀ j, j < k → 900 ≤ attemptElapsed s t j) ∧ attemptElapsed s t k < 900 ∧
      retryLoop n c s t =
        { ok := true,
          cal := { c with m_packet := (sampleLoop 29 (afterOverrun^[k] s) 0).1 &&& (msb - 1) },
          sim := (sampleLoop 29 (afterOverrun^[k] s) 0).2.micros.2 }) := by
  by_cases hall : ∀ j, j < n → 900 ≤ attemptElapsed s t j
  · left
    refine ⟨hall, ?_⟩
    have h := retryLoop_overruns n 0 c s t hall
    rw [Nat.add_zero] at h
    rw [h, retryLoop_zero]
  · right
    have hex : ∃ k, k < n ∧ attemptElapsed s t k < 900 := by
      by_contra hne
      apply hall
      intro j hj
      by_contra hlt
      exact hne ⟨j, hj, Nat.lt_of_not_le hlt⟩
    refine ⟨Nat.find hex, (Nat.find_spec hex).1, ?_, (Nat.find_spec hex).2, ?_⟩
    · intro j hj
      by_contra hlt
      exact Nat.find_min hex hj
        ⟨Nat.lt_trans hj (Nat.find_spec hex).1, Nat.lt_of_not_le hlt⟩
    · have hover : ∀ j, j < Nat.find hex → 900 ≤ attemptElapsed s t j := by
        intro j hj
        by_contra hlt
        exact Nat.find_min hex hj
          ⟨Nat.lt_trans hj (Nat.find_spec hex).1, Nat.lt_of_not_le hlt⟩
      obtain ⟨m, hm⟩ : ∃ m, n = Nat.find hex + (m + 1) :=
        ⟨n - Nat.find hex - 1, by have := (Nat.find_spec hex).1; omega⟩
      have hacc : sub32 (reading (afterOverrun^[Nat.find hex] s)
          (afterOverrun^[Nat.find hex] s).tpos) (attemptStart s t (Nat.find hex)) < 900 := by
        have := (Nat.find_spec hex).2
        simpa [attemptElapsed, attemptEnd, reading] using this
      conv_lhs => rw [hm]
      rw [retryLoop_overruns _ _ c s t hover, retryLoop_accept _ _ _ _ hacc]

/-! ## The synchronisation loop -/

@[simp] theorem afterSync_line (s : Sim) : (afterSync s).line = s.line := rfl

@[simp] theorem afterSync_tpos (s : Sim) : (afterSync s).tpos = s.tpos + 2 := rfl

@[simp] theorem afterSync_dpos (s : Sim) : (afterSync s).dpos = s.dpos := rfl

theorem afterSync_delays (s : Sim) : delays (afterSync s) = delays s := by
  simp [delays, afterSync, Sim.micros, Sim.waitHigh, Sim.waitLow]

theorem afterSync_risingEdges (s : Sim) : risingEdges (afterSync s) = risingEdges s := by
  simp [risingEdges, afterSync, Sim.micros, Sim.waitHigh, Sim.waitLow]

@[simp] theorem iterate_afterSync_line (k : Nat) (s : Sim) :
    (afterSync^[k] s).line = s.line := by
  induction k generalizing s with
  | zero => rfl
  | succ k ih => rw [Function.iterate_succ_apply, ih, afterSync_line]

@[simp] theorem iterate_afterSync_tpos (k : Nat) (s : Sim) :
    (afterSync^[k] s).tpos = s.tpos + 2 * k := by
  induction k generalizing s with
  | zero => rfl
  | succ k ih => rw [Function.iterate_succ_apply, ih, afterSync_tpos]; omega

@[simp] theorem iterate_afterSync_dpos (k : Nat) (s : Sim) :
    (afterSync^[k] s).dpos = s.dpos := by
  induction k generalizing s with
  | zero => rfl
  | succ k ih => rw [Function.iterate_succ_apply, ih, afterSync_dpos]

theorem iterate_afterSync_delays (k : Nat) (s : Sim) :
    delays (afterSync^[k] s) = delays s := by
  induction k generalizing s with
  | zero => rfl
  | succ k ih => rw [Function.iterate_succ_apply, ih, afterSync_delays]

theorem iterate_afterSync_risingEdges (k : Nat) (s : Sim) :
    risingEdges (afterSync^[k] s) = risingEdges s := by
  induction k generalizing s with
  | zero => rfl
  | succ k ih => rw [Function.iterate_succ_apply, ih, afterSync_risingEdges]

/-- One iteration of the synchronisation loop. -/
theorem syncLoop_succ (fuel : Nat) (s : Sim) :
    syncLoop (fuel + 1) s =
      if highPeriod s 0 < 800 then syncLoop fuel (afterSync s)
      else some (highEnd s 0, afterSync s) := rfl

theorem highPeriod_afterSync (s : Sim) (m : Nat) :
    highPeriod (afterSync s) m = highPeriod s (m + 1) := by
  have e : s.tpos + 2 + 2 * m = s.tpos + 2 * (m + 1) := by omega
  simp [highPeriod, highEnd, highStart, reading, e]

theorem highEnd_afterSync (s : Sim) (m : Nat) :
    highEnd (afterSync s) m = highEnd s (m + 1) := by
  have e : s.tpos + 2 + 2 * m = s.tpos + 2 * (m + 1) := by omega
  simp [highEnd, reading, e]

/-- The loop leaves at the first high-period of 800 or more, given fuel to get there. -/
theorem syncLoop_exit (n fuel : Nat) (s : Sim)
    (hshort : ∀ m, m < n → highPeriod s m < 800) (hlong : 800 ≤ highPeriod s n)
    (hfuel : n < fuel) :
    syncLoop fuel s = some (highEnd s n, afterSync^[n + 1] s) := by
  induction n generalizing s fuel with
  | zero =>
    obtain ⟨f, rfl⟩ : ∃ f, fuel = f + 1 := ⟨fuel - 1, by omega⟩
    rw [syncLoop_succ, if_neg (Nat.not_lt.mpr hlong)]
    rfl
  | succ n ih =>
    obtain ⟨f, rfl⟩ : ∃ f, fuel = f + 1 := ⟨fuel - 1, by omega⟩
    rw [syncLoop_succ, if_pos (hshort 0 (Nat.succ_pos n)),
      ih f (afterSync s) _ _ (by omega), highEnd_afterSync,
      Function.iterate_succ_apply (n := n + 1)]
    · intro m hm
      rw [highPeriod_afterSync]
      exact hshort (m + 1) (Nat.succ_lt_succ hm)
    · rw [highPeriod_afterSync]
      exact hlong

/-- While every high-period seen is shorter than 800 the loop does not leave. -/
theorem syncLoop_none (fuel : Nat) (s : Sim)
    (hshort : ∀ m, m < fuel → highPeriod s m < 800) : syncLoop fuel s = none := by
  induction fuel generalizing s with
  | zero => rfl
  | succ f ih =>
    rw [syncLoop_succ, if_pos (hshort 0 (Nat.succ_pos f))]
    apply ih
    intro m hm
    rw [highPeriod_afterSync]
    exact hshort (m + 1) (Nat.succ_lt_succ hm)

/-- Whenever the loop leaves, it does so at the first high-period of 800 or more. -/
theorem syncLoop_some (fuel : Nat) (s s1 : Sim) (t : Nat)
    (h : syncLoop fuel s = some (t, s1)) :
    ∃ n, n < fuel ∧ (∀ m, m < n → highPeriod s m < 800) ∧ 800 ≤ highPeriod s n ∧
      t = highEnd s n ∧ s1 = afterSync^[n + 1] s := by
  by_cases hall : ∀ m, m < fuel → highPeriod s m < 800
  · rw [syncLoop_none fuel s hall] at h
    exact absurd h (by simp)
  · have hex : ∃ n, n < fuel ∧ 800 ≤ highPeriod s n := by
      by_contra hne
      apply hall
      intro m hm
      by_contra hge
      exact hne ⟨m, hm, Nat.le_of_not_lt hge⟩
    have hshort : ∀ m, m < Nat.find hex → highPeriod s m < 800 := by
      intro m hm
      by_contra hge
      exact Nat.find_min hex hm
        ⟨Nat.lt_trans hm (Nat.find_spec hex).1, Nat.le_of_not_lt hge⟩
    have hx := syncLoop_exit (Nat.find hex) fuel s hshort (Nat.find_spec hex).2
      (Nat.find_spec hex).1
    rw [hx] at h
    have hp := Option.some.inj h
    exact ⟨Nat.find hex, (Nat.find_spec hex).1, hshort, (Nat.find_spec hex).2,
      (congrArg Prod.fst hp).symm, (congrArg Prod.snd hp).symm⟩

/-- The loop stops at the first attempt below 900, storing that attempt's masked value. -/
theorem retryLoop_first_accept (n k : Nat) (c : Caliper) (s : Sim) (t : Nat) (hk : k < n)
    (hover : ∀ j, j < k → 900 ≤ attemptElapsed s t j) (hin : attemptElapsed s t k < 900) :
    retryLoop n c s t =
      { ok := true,
        cal := { c with m_packet := (sampleLoop 29 (afterOverrun^[k] s) 0).1 &&& (msb - 1) },
        sim := (sampleLoop 29 (afterOverrun^[k] s) 0).2.micros.2 } := by
  obtain ⟨m, hm⟩ : ∃ m, n = k + (m + 1) := ⟨n - k - 1, by omega⟩
  have hacc : sub32 (reading (afterOverrun^[k] s) (afterOverrun^[k] s).tpos)
      (attemptStart s t k) < 900 := by
    simpa [attemptElapsed, attemptEnd, reading] using hin
  rw [hm, retryLoop_overruns _ _ c s t hover, retryLoop_accept _ _ _ _ hacc]

/-! ## The whole of `update()` -/

/-- A call of `update()` that returns went through some number of synchronisation
iterations and then through the retry loop. -/
theorem update_some (c : Caliper) (fuel : Nat) (s : Sim) (out : Outcome)
    (h : c.update fuel s = some out) :
    ∃ n, n < fuel ∧ syncLoop fuel s = some (highEnd s n, afterSync^[n + 1] s) ∧
      out = retryLoop 4 c (afterSync^[n + 1] s) (highEnd s n) := by
  unfold Caliper.update at h
  cases hs : syncLoop fuel s with
  | none => rw [hs] at h; exact absurd h (by simp)
  | some p =>
    obtain ⟨t, s1⟩ := p
    rw [hs] at h
    obtain ⟨n, hn, -, -, ht, hs1⟩ := syncLoop_some fuel s s1 t hs
    subst ht hs1
    exact ⟨n, hn, rfl, (Option.some.inj h).symm⟩

/-- Once synchronisation has completed, `update()` returns what the retry loop returns. -/
theorem update_of_sync (c : Caliper) (fuel : Nat) (s s1 : Sim) (t : Nat)
    (h : syncLoop fuel s = some (t, s1)) :
    c.update fuel s = some (retryLoop 4 c s1 t) := by
  unfold Caliper.update
  rw [h]

/-- The packet stored by a successful attempt, bit by bit, in terms of the levels that
the attempt sampled. -/
theorem accepted_testBit (c : Caliper) (s : Sim) (k i : Nat) :
    ({ c with m_packet := (sampleLoop 29 (afterOverrun^[k] s) 0).1 &&& (msb - 1) }
        : Caliper).getPacket.testBit i
      = (decide (i < 29) && attemptLow s k i) := by
  show ((sampleLoop 29 (afterOverrun^[k] s) 0).1 &&& (msb - 1)).testBit i = _
  rw [masked_testBit, iterate_afterOverrun_line, iterate_afterOverrun_dpos]
  rfl

theorem accepted_delays (s : Sim) (k : Nat) :
    delays (sampleLoop 29 (afterOverrun^[k] s) 0).2.micros.2 = delays s + k := by
  rw [← iterate_afterOverrun_delays k s]
  simp [delays, Sim.micros, sampleLoop_count_delay]

theorem accepted_risingEdges (s : Sim) (k : Nat) :
    risingEdges (sampleLoop 29 (afterOverrun^[k] s) 0).2.micros.2
      = risingEdges s + 29 * (k + 1) := by
  have h := iterate_afterOverrun_risingEdges k s
  simp only [risingEdges] at h ⊢
  simp [Sim.micros, sampleLoop_count_rising, h]
  omega

/-- The retry loop never undoes a `delay(10)`: the count does not go down. -/
theorem retryLoop_delays_le (n : Nat) (c : Caliper) (s : Sim) (t : Nat) :
    delays s ≤ delays (retryLoop n c s t).sim := by
  rcases retryLoop_cases n c s t with ⟨-, hf⟩ | ⟨k, -, -, -, ha⟩
  · rw [hf]
    show delays s ≤ delays (afterOverrun^[n] s)
    rw [iterate_afterOverrun_delays]
    omega
  · rw [ha]
    show delays s ≤ delays (sampleLoop 29 (afterOverrun^[k] s) 0).2.micros.2
    rw [accepted_delays]
    omega

/-- The packet stored by a call that returns `true` holds, bit by bit, the last 29 levels
that were sampled. -/
theorem update_true_testBit (c : Caliper) (fuel : Nat) (s : Sim) (out : Outcome)
    (h : c.update fuel s = some out) (hok : out.ok = true) (i : Nat) :
    out.cal.getPacket.testBit i
      = (decide (i < 29) && s.line.dataLow (out.sim.dpos - 29 + i)) := by
  obtain ⟨n, -, -, hout⟩ := update_some c fuel s out h
  rcases retryLoop_cases 4 c (afterSync^[n + 1] s) (highEnd s n) with
    ⟨-, hf⟩ | ⟨k, -, -, -, ha⟩
  · rw [hout, hf] at hok
    exact absurd hok (by simp)
  · rw [hout, ha, accepted_testBit]
    have hd : (sampleLoop 29 (afterOverrun^[k] (afterSync^[n + 1] s)) 0).2.micros.2.dpos
        = s.dpos + 29 * k + 29 := by
      simp [Sim.micros]
    simp only [hd, attemptLow, iterate_afterSync_line, iterate_afterSync_dpos]
    have e : s.dpos + 29 * k + 29 - 29 + i = s.dpos + 29 * k + i := by omega
    rw [e]

/-- When after synchronisation the first `k` attempts overrun and the next one does not,
`update()` returns `true` after `k` delays and `29 * (k + 1)` sampled edges, with the
levels of that attempt as its packet. -/
theorem update_accept_at (c : Caliper) (fuel : Nat) (s s1 : Sim) (t k : Nat)
    (hsync : syncLoop fuel s = some (t, s1)) (hk : k < 4)
    (hover : ∀ j, j < k → 900 ≤ attemptElapsed s1 t j)
    (hin : attemptElapsed s1 t k < 900) :
    ∃ out, c.update fuel s = some out ∧ out.ok = true ∧
      delays out.sim = delays s + k ∧
      risingEdges out.sim = risingEdges s + 29 * (k + 1) ∧
      ∀ i, out.cal.getPacket.testBit i = (decide (i < 29) && attemptLow s1 k i) := by
  obtain ⟨n, -, -, -, -, hs1⟩ := syncLoop_some fuel s s1 t hsync
  have hd : delays s1 = delays s := by rw [hs1, iterate_afterSync_delays]
  have hr : risingEdges s1 = risingEdges s := by rw [hs1, iterate_afterSync_risingEdges]
  refine ⟨retryLoop 4 c s1 t, update_of_sync c fuel s s1 t hsync, ?_⟩
  rw [retryLoop_first_accept 4 k c s1 t hk hover hin]
  refine ⟨rfl, ?_, ?_, ?_⟩
  · show delays (sampleLoop 29 (afterOverrun^[k] s1) 0).2.micros.2 = _
    rw [accepted_delays, hd]
  · show risingEdges (sampleLoop 29 (afterOverrun^[k] s1) 0).2.micros.2 = _
    rw [accepted_risingEdges, hr]
  · intro i
    exact accepted_testBit c s1 k i

/-- The retry loop does not look at the packet stored before the call. -/
theorem retryLoop_old_packet (n : Nat) (c : Caliper) (v1 v2 : Nat) (s : Sim) (t : Nat) :
    retryLoop n { c with m_packet := v1 } s t = retryLoop n { c with m_packet := v2 } s t := by
  induction n generalizing s t with
  | zero => rfl
  | succ n ih =>
    by_cases h : sub32 (reading s s.tpos) t < 900
    · rw [retryLoop_accept n _ s t h, retryLoop_accept n _ s t h]
    · rw [retryLoop_overrun n _ s t (Nat.le_of_not_lt h),
        retryLoop_overrun n _ s t (Nat.le_of_not_lt h), ih]

/-! ## The field decoder -/

/-- The flag test `(m_packet & 1UL<<k) != 0` reads bit `k`. -/
theorem and_shift_bne_zero (v k : Nat) : ((v &&& 1 <<< k) != 0) = v.testBit k := by
  rw [Nat.one_shiftLeft, Nat.and_two_pow]
  cases v.testBit k <;> simp

theorem isNegative_eq (c : Caliper) : c.isNegative = c.getPacket.testBit 24 :=
  and_shift_bne_zero c.m_packet 24

theorem isMetric_eq (c : Caliper) : c.isMetric = c.getPacket.testBit 26 :=
  and_shift_bne_zero c.m_packet 26

theorem isHalf_eq (c : Caliper) : c.isHalf = c.getPacket.testBit 25 :=
  and_shift_bne_zero c.m_packet 25

theorem getDigitsBCD_testBit (c : Caliper) (i : Nat) :
    c.getDigitsBCD.testBit i = (c.getPacket.testBit i && decide (i < 20)) := by
  have h : (0xFFFFF : Nat) = 2 ^ 20 - 1 := by decide
  show (c.m_packet &&& 0xFFFFF).testBit i = _
  rw [Nat.testBit_and, h, Nat.testBit_two_pow_sub_one]
  rfl

theorem testBit_flag (b : Bool) (k i : Nat) :
    (b.toNat <<< k).testBit i = (b && decide (k = i)) := by
  cases b
  · simp
  · simp [Nat.one_shiftLeft, Nat.testBit_two_pow]

theorem encodePacket_testBit (d : Nat) (neg half metric : Bool) (i : Nat) :
    (encodePacket d neg half metric).testBit i =
      (d.testBit i || (neg && decide (24 = i)) || (half && decide (25 = i))
        || (metric && decide (26 = i))) := by
  simp only [encodePacket, Nat.testBit_or, testBit_flag]

theorem testBit_of_lt_digits (d i : Nat) (hd : d < 2 ^ 20) (hi : 20 ≤ i) :
    d.testBit i = false :=
  Nat.testBit_lt_two_pow (Nat.lt_of_lt_of_le hd (Nat.pow_le_pow_right (by decide) hi))

/-! ## The claims -/

/-- C1: bit order of the sampling loop. For the 29 levels read on the 29 rising edges of
one attempt, and every `i` in 0..27, bit `i` of the candidate value (before and after
masking) is set exactly when the data line was low on edge `i`. In particular, when a
call of `update()` returns `true` and the data line was low only on edge 0 of the 29
edges it sampled last, the stored packet has bit 0 set and every other bit clear. -/
theorem C1_bit_order (c : Caliper) (fuel : Nat) (s : Sim) :
    (∀ i, i < 28 →
      (sampleLoop 29 s 0).1.testBit i = s.line.dataLow (s.dpos + i) ∧
      ((sampleLoop 29 s 0).1 &&& (msb - 1)).testBit i = s.line.dataLow (s.dpos + i)) ∧
    (∀ out, c.update fuel s = some out → out.ok = true →
      (∀ i, i < 29 → s.line.dataLow (out.sim.dpos - 29 + i) = decide (i = 0)) →
      out.cal.getPacket.testBit 0 = true ∧
        ∀ i, i ≠ 0 → out.cal.getPacket.testBit i = false) := by
  refine ⟨?_, ?_⟩
  · intro i hi
    have h29 : i < 29 := by omega
    rw [masked_testBit, sampleLoop_full_testBit]
    simp [h29]
  · intro out h hok hlow
    refine ⟨?_, ?_⟩
    · rw [update_true_testBit c fuel s out h hok, hlow 0 (by decide)]
      rfl
    · intro i hi
      rw [update_true_testBit c fuel s out h hok]
      by_cases h29 : i < 29
      · rw [hlow i h29]
        simp [hi]
      · simp [h29]

/-- Witness of C1 on `firstLowLine`: the call returns `true` and stores packet 1. -/
theorem C1_bit_order_witness :
    ∃ out, (Caliper.new 2 3).update 1 (Sim.start firstLowLine) = some out ∧
      out.ok = true ∧ out.cal.getPacket = 1 ∧
      out.cal.getPacket.testBit 0 = true ∧
      (∀ i, i ≠ 0 → out.cal.getPacket.testBit i = false) ∧
      (sampleLoop 29 (Sim.start firstLowLine) 0).1.testBit 0
        = firstLowLine.dataLow 0 :=
  ⟨_, rfl, rfl, rfl,
    ((C1_bit_order (Caliper.new 2 3) 1 (Sim.start firstLowLine)).2 _ rfl rfl
      (by decide)).1,
    ((C1_bit_order (Caliper.new 2 3) 1 (Sim.start firstLowLine)).2 _ rfl rfl
      (by decide)).2,
    ((C1_bit_order (Caliper.new 2 3) 1 (Sim.start firstLowLine)).1 0 (by decide)).1⟩

/-- C2, evaluated on `lastLowLine` (data low on the 29th rising edge only, a 800 us
high-period, sampling done 880 us later): `update()` returns `true` and `getPacket()` is
`2 ^ 28`, so the 29th sampled bit is kept in bit 28 and the packet is not a 28-bit value. -/
theorem C2_last_bit_kept :
    ∃ out, (Caliper.new 2 3).update 1 (Sim.start lastLowLine) = some out ∧
      out.ok = true ∧ out.cal.getPacket = 2 ^ 28 ∧ ¬ out.cal.getPacket < 2 ^ 28 :=
  ⟨_, rfl, rfl, rfl, by decide⟩

/-- C3: exhaustion. Once phase synchronisation has completed (with start-of-packet
timestamp `t` in world `s1`), `update()` returns; it returns `false` exactly when each of
the 4 sampling attempts has an elapsed time of 900 us or more; and whenever it returns
`false` the stored packet is 0 afterwards, whatever packet was stored before. -/
theorem C3_exhaustion (c : Caliper) (fuel : Nat) (s s1 : Sim) (t : Nat)
    (hsync : syncLoop fuel s = some (t, s1)) :
    ∃ out, c.update fuel s = some out ∧
      (out.ok = false ↔ ∀ j, j < 4 → 900 ≤ attemptElapsed s1 t j) ∧
      (out.ok = false → out.cal.getPacket = 0) := by
  refine ⟨retryLoop 4 c s1 t, update_of_sync c fuel s s1 t hsync, ?_, ?_⟩
  · rcases retryLoop_cases 4 c s1 t with ⟨hall, hf⟩ | ⟨k, hk, -, hlt, ha⟩
    · rw [hf]
      exact ⟨fun _ => hall, fun _ => rfl⟩
    · rw [ha]
      constructor
      · intro h
        exact absurd h (by simp)
      · intro hall
        exact absurd (hall k hk) (Nat.not_le.mpr hlt)
  · rcases retryLoop_cases 4 c s1 t with ⟨-, hf⟩ | ⟨k, -, -, -, ha⟩
    · rw [hf]
      intro _
      rfl
    · rw [ha]
      intro h
      exact absurd h (by simp)

/-- Witness of C3 on `slowLine`, with a nonzero packet stored before the call: all four
attempts overrun, the call returns `false` and the packet is 0. -/
theorem C3_exhaustion_witness :
    (∀ j, j < 4 → 900 ≤ attemptElapsed (afterSync (Sim.start slowLine)) 1000 j) ∧
    ∃ out, ({ m_clockPin := 2, m_dataPin := 3, m_packet := 74565 } : Caliper).update 1
        (Sim.start slowLine) = some out ∧
      (out.ok = false ↔
        ∀ j, j < 4 → 900 ≤ attemptElapsed (afterSync (Sim.start slowLine)) 1000 j) ∧
      (out.ok = false → out.cal.getPacket = 0) :=
  ⟨by decide,
    C3_exhaustion { m_clockPin := 2, m_dataPin := 3, m_packet := 74565 } 1
      (Sim.start slowLine) (afterSync (Sim.start slowLine)) 1000 rfl⟩

/-- C4: retry. For every `k` in 0..3, if after synchronisation the first `k` sampling
attempts overrun (elapsed 900 us or more) and attempt `k + 1` does not, then `update()`
returns `true`, `delay(10)` is called exactly `k` times during the call, exactly
`29 * (k + 1)` rising edges are sampled, and the stored packet consists of the 29 levels
sampled during attempt `k + 1` and of nothing else. -/
theorem C4_retry (c : Caliper) (fuel : Nat) (s s1 : Sim) (t k : Nat)
    (hsync : syncLoop fuel s = some (t, s1)) (hk : k < 4)
    (hover : ∀ j, j < k → 900 ≤ attemptElapsed s1 t j)
    (hin : attemptElapsed s1 t k < 900) :
    ∃ out, c.update fuel s = some out ∧ out.ok = true ∧
      delays out.sim = delays s + k ∧
      risingEdges out.sim = risingEdges s + 29 * (k + 1) ∧
      ∀ i, out.cal.getPacket.testBit i = (decide (i < 29) && attemptLow s1 k i) :=
  update_accept_at c fuel s s1 t k hsync hk hover hin

/-- Witness of C4 on `retryLine` with `k = 1`: 950 us, then 850 us. -/
theorem C4_retry_witness :
    attemptElapsed (afterSync (Sim.start retryLine)) 800 0 = 950 ∧
    attemptElapsed (afterSync (Sim.start retryLine)) 800 1 = 850 ∧
    ∃ out, (Caliper.new 2 3).update 1 (Sim.start retryLine) = some out ∧ out.ok = true ∧
      delays out.sim = delays (Sim.start retryLine) + 1 ∧
      risingEdges out.sim = risingEdges (Sim.start retryLine) + 29 * (1 + 1) ∧
      ∀ i, out.cal.getPacket.testBit i
        = (decide (i < 29) && attemptLow (afterSync (Sim.start retryLine)) 1 i) :=
  ⟨rfl, rfl,
    C4_retry (Caliper.new 2 3) 1 (Sim.start retryLine) (afterSync (Sim.start retryLine))
      800 1 rfl (by decide) (by decide) (by decide)⟩

/-- C5: validity threshold. One sampling attempt, started in world `s` with
start-of-packet timestamp `t`, is accepted exactly when its elapsed time is below 900:
then the masked value is stored and `true` is returned at once, with 29 edges sampled and
no `delay(10)`; otherwise the recovery path runs (one more `delay(10)`) and the loop goes
on with one iteration less. An elapsed time of exactly 899 us is accepted, also as the
first attempt of `update()`; one of exactly 900 us is rejected. -/
theorem C5_threshold (n : Nat) (c : Caliper) (s : Sim) (t : Nat) :
    (retryLoop (n + 1) c s t =
      if attemptElapsed s t 0 < 900 then
        { ok := true, cal := { c with m_packet := (sampleLoop 29 s 0).1 &&& (msb - 1) },
          sim := (sampleLoop 29 s 0).2.micros.2 }
      else retryLoop n c (afterOverrun s) (reading s (s.tpos + 1))) ∧
    delays (sampleLoop 29 s 0).2.micros.2 = delays s ∧
    risingEdges (sampleLoop 29 s 0).2.micros.2 = risingEdges s + 29 ∧
    delays (afterOverrun s) = delays s + 1 ∧
    (attemptElapsed s t 0 = 899 →
      (retryLoop (n + 1) c s t).ok = true ∧
      delays (retryLoop (n + 1) c s t).sim = delays s ∧
      risingEdges (retryLoop (n + 1) c s t).sim = risingEdges s + 29) ∧
    (attemptElapsed s t 0 = 899 → ∀ fuel s0, syncLoop fuel s0 = some (t, s) →
      ∃ out, c.update fuel s0 = some out ∧ out.ok = true ∧
        delays out.sim = delays s0 ∧ risingEdges out.sim = risingEdges s0 + 29) ∧
    (attemptElapsed s t 0 = 900 →
      retryLoop (n + 1) c s t = retryLoop n c (afterOverrun s) (reading s (s.tpos + 1)) ∧
      delays s + 1 ≤ delays (retryLoop (n + 1) c s t).sim) := by
  have hacc_d : delays (sampleLoop 29 s 0).2.micros.2 = delays s := by
    simpa using accepted_delays s 0
  have hacc_r : risingEdges (sampleLoop 29 s 0).2.micros.2 = risingEdges s + 29 := by
    simpa using accepted_risingEdges s 0
  have hstep : retryLoop (n + 1) c s t =
      if attemptElapsed s t 0 < 900 then
        { ok := true, cal := { c with m_packet := (sampleLoop 29 s 0).1 &&& (msb - 1) },
          sim := (sampleLoop 29 s 0).2.micros.2 }
      else retryLoop n c (afterOverrun s) (reading s (s.tpos + 1)) := by
    by_cases h : attemptElapsed s t 0 < 900
    · rw [if_pos h]
      exact retryLoop_accept n c s t (by rw [← attemptElapsed_zero]; exact h)
    · rw [if_neg h]
      exact retryLoop_overrun n c s t
        (by rw [← attemptElapsed_zero]; exact Nat.le_of_not_lt h)
  refine ⟨hstep, hacc_d, hacc_r, afterOverrun_delays s, ?_, ?_, ?_⟩
  · intro h
    have hlt : attemptElapsed s t 0 < 900 := by omega
    rw [hstep, if_pos hlt]
    exact ⟨rfl, hacc_d, hacc_r⟩
  · intro h fuel s0 hsync
    have hlt : attemptElapsed s t 0 < 900 := by omega
    obtain ⟨out, hout, hok, hd, hr, -⟩ :=
      update_accept_at c fuel s0 s t 0 hsync (by decide)
        (fun j hj => absurd hj (Nat.not_lt_zero j)) hlt
    exact ⟨out, hout, hok, hd, hr⟩
  · intro h
    have hge : ¬ attemptElapsed s t 0 < 900 := by omega
    rw [hstep, if_neg hge]
    refine ⟨rfl, ?_⟩
    have := retryLoop_delays_le n c (afterOverrun s) (reading s (s.tpos + 1))
    rw [afterOverrun_delays] at this
    exact this

/-- Witness of C5: on `line899` the first attempt takes 899 us and `update()` returns
`true` with no delay; on `line900` it takes 900 us and the recovery path runs. -/
theorem C5_threshold_witness :
    (attemptElapsed (afterSync (Sim.start line899)) 1800 0 = 899 ∧
      ∃ out, (Caliper.new 2 3).update 1 (Sim.start line899) = some out ∧ out.ok = true ∧
        delays out.sim = delays (Sim.start line899) ∧
        risingEdges out.sim = risingEdges (Sim.start line899) + 29) ∧
    (attemptElapsed (afterSync (Sim.start line900)) 1800 0 = 900 ∧
      retryLoop (3 + 1) (Caliper.new 2 3) (afterSync (Sim.start line900)) 1800
        = retryLoop 3 (Caliper.new 2 3) (afterOverrun (afterSync (Sim.start line900)))
            (reading (afterSync (Sim.start line900))
              ((afterSync (Sim.start line900)).tpos + 1)) ∧
      delays (afterSync (Sim.start line900)) + 1 ≤
        delays (retryLoop (3 + 1) (Caliper.new 2 3)
          (afterSync (Sim.start line900)) 1800).sim) :=
  ⟨⟨rfl, (C5_threshold 3 (Caliper.new 2 3) (afterSync (Sim.start line899)) 1800).2.2.2.2.2.1
      rfl 1 (Sim.start line899) rfl⟩,
    ⟨rfl, (C5_threshold 3 (Caliper.new 2 3) (afterSync (Sim.start line900)) 1800).2.2.2.2.2.2
      rfl⟩⟩

/-- C6: phase-synchronisation boundary. One iteration of the loop goes round again when
the high-period `T1 - T0` is below 800 and leaves otherwise: exactly 799 us continues,
exactly 800 us ends the loop. Over any sequence of high-periods, if period `n` is the
first of 800 us or more, the loop leaves after exactly `n + 1` iterations (it has not
left with fuel for `n` or fewer), and the `T1` of that period is the start-of-packet
timestamp from which `update()` times its first sampling attempt. -/
theorem C6_sync_boundary (c : Caliper) (s : Sim) (n fuel : Nat)
    (hshort : ∀ m, m < n → highPeriod s m < 800) (hlong : 800 ≤ highPeriod s n)
    (hfuel : n < fuel) :
    syncLoop fuel s = some (highEnd s n, afterSync^[n + 1] s) ∧
    (∀ f, f ≤ n → syncLoop f s = none) ∧
    (afterSync^[n + 1] s).tpos = s.tpos + 2 * (n + 1) ∧
    c.update fuel s = some (retryLoop 4 c (afterSync^[n + 1] s) (highEnd s n)) ∧
    attemptElapsed (afterSync^[n + 1] s) (highEnd s n) 0
      = sub32 (reading s (s.tpos + 2 * (n + 1))) (highEnd s n) ∧
    (retryLoop 4 c (afterSync^[n + 1] s) (highEnd s n) =
      if sub32 (reading s (s.tpos + 2 * (n + 1))) (highEnd s n) < 900 then
        { ok := true,
          cal := { c with
            m_packet := (sampleLoop 29 (afterSync^[n + 1] s) 0).1 &&& (msb - 1) },
          sim := (sampleLoop 29 (afterSync^[n + 1] s) 0).2.micros.2 }
      else retryLoop 3 c (afterOverrun (afterSync^[n + 1] s))
        (reading s (s.tpos + 2 * (n + 1) + 1))) ∧
    (∀ f x, highPeriod x 0 = 799 → syncLoop (f + 1) x = syncLoop f (afterSync x)) ∧
    (∀ f x, highPeriod x 0 = 800 → syncLoop (f + 1) x = some (highEnd x 0, afterSync x)) := by
  have hexit := syncLoop_exit n fuel s hshort hlong hfuel
  have ht : (afterSync^[n + 1] s).tpos = s.tpos + 2 * (n + 1) :=
    iterate_afterSync_tpos (n + 1) s
  have hl : (afterSync^[n + 1] s).line = s.line := iterate_afterSync_line (n + 1) s
  have hel : attemptElapsed (afterSync^[n + 1] s) (highEnd s n) 0
      = sub32 (reading s (s.tpos + 2 * (n + 1))) (highEnd s n) := by
    simp only [attemptElapsed, attemptEnd, attemptStart, reading, ht, hl, if_true,
      Nat.mul_zero, Nat.add_zero]
  refine ⟨hexit, ?_, ht, update_of_sync c fuel s _ _ hexit, hel, ?_, ?_, ?_⟩
  · intro f hf
    exact syncLoop_none f s (fun m hm => hshort m (Nat.lt_of_lt_of_le hm hf))
  · rw [← hel]
    by_cases h : attemptElapsed (afterSync^[n + 1] s) (highEnd s n) 0 < 900
    · rw [if_pos h]
      exact retryLoop_accept 3 c _ _ (by rw [← attemptElapsed_zero]; exact h)
    · rw [if_neg h, retryLoop_overrun 3 c _ _
        (by rw [← attemptElapsed_zero]; exact Nat.le_of_not_lt h)]
      simp only [reading, ht, hl]
  · intro f x hx
    rw [syncLoop_succ, if_pos (by omega)]
  · intro f x hx
    rw [syncLoop_succ, if_neg (by omega)]

/-- Witness of C6 on `boundaryLine`: a high-period of 799 us is passed over, the next
one of 800 us ends the loop, and its `T1 = 5800` is the start-of-packet timestamp. -/
theorem C6_sync_boundary_witness :
    highPeriod (Sim.start boundaryLine) 0 = 799 ∧
    highPeriod (Sim.start boundaryLine) 1 = 800 ∧
    highEnd (Sim.start boundaryLine) 1 = 5800 ∧
    syncLoop 2 (Sim.start boundaryLine)
      = some (highEnd (Sim.start boundaryLine) 1, afterSync^[1 + 1] (Sim.start boundaryLine)) ∧
    syncLoop 1 (Sim.start boundaryLine) = none :=
  ⟨rfl, rfl, rfl,
    (C6_sync_boundary (Caliper.new 2 3) (Sim.start boundaryLine) 1 2 (by decide) (by decide)
      (by decide)).1,
    (C6_sync_boundary (Caliper.new 2 3) (Sim.start boundaryLine) 1 2 (by decide) (by decide)
      (by decide)).2.1 1 (by decide)⟩

/-- C7: field decoder. For every stored packet value, `getDigitsBCD()` is the packet
`& 0xFFFFF`, `isNegative()` is bit 24, `isMetric()` is bit 26, `isInch()` is the negation
of `isMetric()` and `isHalf()` is bit 25; and two engines whose packets agree on every
bit outside the reserved positions 20 to 23 and 27 give the same five results. -/
theorem C7_field_decoder (c : Caliper) :
    c.getDigitsBCD = c.getPacket &&& 0xFFFFF ∧
    c.isNegative = c.getPacket.testBit 24 ∧
    c.isMetric = c.getPacket.testBit 26 ∧
    c.isInch = !c.isMetric ∧
    c.isHalf = c.getPacket.testBit 25 ∧
    (∀ c2 : Caliper,
      (∀ i, i ∉ reservedBits → c2.getPacket.testBit i = c.getPacket.testBit i) →
      c2.getDigitsBCD = c.getDigitsBCD ∧ c2.isNegative = c.isNegative ∧
      c2.isMetric = c.isMetric ∧ c2.isInch = c.isInch ∧ c2.isHalf = c.isHalf) := by
  refine ⟨rfl, isNegative_eq c, isMetric_eq c, rfl, isHalf_eq c, ?_⟩
  intro c2 h
  have hm : c2.isMetric = c.isMetric := by
    rw [isMetric_eq, isMetric_eq]
    exact h 26 (by decide)
  refine ⟨?_, ?_, hm, ?_, ?_⟩
  · apply Nat.eq_of_testBit_eq
    intro i
    rw [getDigitsBCD_testBit, getDigitsBCD_testBit]
    by_cases hi : i < 20
    · have hr : i ∉ reservedBits := by
        simp only [reservedBits, List.mem_cons, List.not_mem_nil, or_false, not_or]
        omega
      rw [h i hr]
    · simp [hi]
  · rw [isNegative_eq, isNegative_eq]
    exact h 24 (by decide)
  · show (!c2.isMetric) = !c.isMetric
    rw [hm]
  · rw [isHalf_eq, isHalf_eq]
    exact h 25 (by decide)

/-- Witness of C7: the packets `0x5012345` and `0xDF12345` differ in the reserved bits
only and decode alike. -/
theorem C7_field_decoder_witness :
    (⟨2, 3, 0xDF12345⟩ : Caliper).getDigitsBCD = (⟨2, 3, 0x5012345⟩ : Caliper).getDigitsBCD ∧
    (⟨2, 3, 0xDF12345⟩ : Caliper).isNegative = (⟨2, 3, 0x5012345⟩ : Caliper).isNegative ∧
    (⟨2, 3, 0xDF12345⟩ : Caliper).isMetric = (⟨2, 3, 0x5012345⟩ : Caliper).isMetric ∧
    (⟨2, 3, 0xDF12345⟩ : Caliper).isInch = (⟨2, 3, 0x5012345⟩ : Caliper).isInch ∧
    (⟨2, 3, 0xDF12345⟩ : Caliper).isHalf = (⟨2, 3, 0x5012345⟩ : Caliper).isHalf :=
  (C7_field_decoder ⟨2, 3, 0x5012345⟩).2.2.2.2.2 ⟨2, 3, 0xDF12345⟩ (by
    intro i hi
    have e : (0xDF12345 : Nat) = 0x5012345 ^^^ 0x8F00000 := by decide
    show (0xDF12345 : Nat).testBit i = (0x5012345 : Nat).testBit i
    rw [e, Nat.testBit_xor]
    have hz : (0x8F00000 : Nat).testBit i = false := by
      have h1 : (0x8F00000 : Nat) = 2 ^ 20 ||| 2 ^ 21 ||| 2 ^ 22 ||| 2 ^ 23 ||| 2 ^ 27 := by
        decide
      simp only [reservedBits, List.mem_cons, List.mem_singleton, List.not_mem_nil,
        not_or, or_false] at hi
      obtain ⟨h20, h21, h22, h23, h27⟩ := hi
      rw [h1]
      simp only [Nat.testBit_or, Nat.testBit_two_pow]
      simp [Ne.symm h20, Ne.symm h21, Ne.symm h22, Ne.symm h23, Ne.symm h27]
    rw [hz]
    simp)

/-- C8: round trip of the field layout. For every digits value `d < 2 ^ 20` and booleans
`neg`, `half`, `metric`, the engine holding `encodePacket d neg half metric` decodes to
`getDigitsBCD() = d`, `isNegative() = neg`, `isHalf() = half`, `isMetric() = metric` and
`isInch() = !metric`. -/
theorem C8_round_trip (p q d : Nat) (neg half metric : Bool) (hd : d < 2 ^ 20) :
    let c : Caliper :=
      { m_clockPin := p, m_dataPin := q, m_packet := encodePacket d neg half metric }
    c.getDigitsBCD = d ∧ c.isNegative = neg ∧ c.isHalf = half ∧ c.isMetric = metric ∧
      c.isInch = !metric := by
  intro c
  have hpk : c.getPacket = encodePacket d neg half metric := rfl
  have hneg : c.isNegative = neg := by
    rw [isNegative_eq, hpk, encodePacket_testBit, testBit_of_lt_digits d 24 hd (by decide)]
    simp
  have hhalf : c.isHalf = half := by
    rw [isHalf_eq, hpk, encodePacket_testBit, testBit_of_lt_digits d 25 hd (by decide)]
    simp
  have hmet : c.isMetric = metric := by
    rw [isMetric_eq, hpk, encodePacket_testBit, testBit_of_lt_digits d 26 hd (by decide)]
    simp
  refine ⟨?_, hneg, hhalf, hmet, ?_⟩
  · apply Nat.eq_of_testBit_eq
    intro i
    rw [getDigitsBCD_testBit, hpk, encodePacket_testBit]
    by_cases hi : i < 20
    · have h24 : ¬ 24 = i := by omega
      have h25 : ¬ 25 = i := by omega
      have h26 : ¬ 26 = i := by omega
      simp [hi, h24, h25, h26]
    · simp [hi, testBit_of_lt_digits d i hd (Nat.le_of_not_lt hi)]
  · show (!c.isMetric) = !metric
    rw [hmet]

/-- Witness of C8: digits `0x12345`, negative, no half flag, metric. -/
theorem C8_round_trip_witness :
    let c : Caliper :=
      { m_clockPin := 2, m_dataPin := 3, m_packet := encodePacket 0x12345 true false true }
    c.getDigitsBCD = 0x12345 ∧ c.isNegative = true ∧ c.isHalf = false ∧
      c.isMetric = true ∧ c.isInch = !true :=
  C8_round_trip 2 3 0x12345 true false true (by decide)

/-- C9: end-to-end first-attempt acquisition with inverted polarity. When the first clock
high-period is exactly 800 us and the first sampling attempt completes 880 us after the
start-of-packet timestamp, `update()` returns `true` on the first attempt (29 edges, no
delay), and afterwards `isNegative()`, `isHalf()` and `isMetric()` are true exactly when
the data line was low on rising edges 24, 25 and 26, and bit `i` of `getDigitsBCD()` is
set exactly when the data line was low on edge `i`, for `i` in 0..19. -/
theorem C9_first_attempt (c : Caliper) (s : Sim) (fuel : Nat)
    (hgap : highPeriod s 0 = 800)
    (hdone : sub32 (reading s (s.tpos + 2)) (highEnd s 0) = 880) :
    ∃ out, c.update (fuel + 1) s = some out ∧ out.ok = true ∧
      delays out.sim = delays s ∧ risingEdges out.sim = risingEdges s + 29 ∧
      out.cal.isNegative = s.line.dataLow (s.dpos + 24) ∧
      out.cal.isHalf = s.line.dataLow (s.dpos + 25) ∧
      out.cal.isMetric = s.line.dataLow (s.dpos + 26) ∧
      ∀ i, i < 20 → out.cal.getDigitsBCD.testBit i = s.line.dataLow (s.dpos + i) := by
  have hsync : syncLoop (fuel + 1) s = some (highEnd s 0, afterSync s) := by
    rw [syncLoop_succ, if_neg (by omega)]
  have hel : attemptElapsed (afterSync s) (highEnd s 0) 0 < 900 := by
    have e : attemptElapsed (afterSync s) (highEnd s 0) 0
        = sub32 (reading s (s.tpos + 2)) (highEnd s 0) := by
      simp only [attemptElapsed, attemptEnd, attemptStart, reading, afterSync_tpos,
        afterSync_line, if_true, Nat.mul_zero, Nat.add_zero]
    rw [e, hdone]
    decide
  obtain ⟨out, hout, hok, hd, hr, hbits⟩ :=
    update_accept_at c (fuel + 1) s (afterSync s) (highEnd s 0) 0 hsync (by decide)
      (fun j hj => absurd hj (Nat.not_lt_zero j)) hel
  have hlow : ∀ i, attemptLow (afterSync s) 0 i = s.line.dataLow (s.dpos + i) := by
    intro i
    simp only [attemptLow, afterSync_line, afterSync_dpos, Nat.mul_zero, Nat.add_zero]
  refine ⟨out, hout, hok, hd, hr, ?_, ?_, ?_, ?_⟩
  · rw [isNegative_eq, hbits, hlow]
    simp
  · rw [isHalf_eq, hbits, hlow]
    simp
  · rw [isMetric_eq, hbits, hlow]
    simp
  · intro i hi
    have h29 : i < 29 := by omega
    rw [getDigitsBCD_testBit, hbits, hlow]
    simp [hi, h29]

/-- Witness of C9 on `flagsLine`: negative and metric are decoded as true, half as
false, and the digits are `0x12345`. -/
theorem C9_first_attempt_witness :
    ∃ out, (Caliper.new 2 3).update (0 + 1) (Sim.start flagsLine) = some out ∧
      out.ok = true ∧
      delays out.sim = delays (Sim.start flagsLine) ∧
      risingEdges out.sim = risingEdges (Sim.start flagsLine) + 29 ∧
      out.cal.isNegative = flagsLine.dataLow (0 + 24) ∧
      out.cal.isHalf = flagsLine.dataLow (0 + 25) ∧
      out.cal.isMetric = flagsLine.dataLow (0 + 26) ∧
      ∀ i, i < 20 → out.cal.getDigitsBCD.testBit i = flagsLine.dataLow (0 + i) :=
  C9_first_attempt (Caliper.new 2 3) (Sim.start flagsLine) 0 rfl rfl

/-- C10: no stale or partial data. On every line on which `update()` returns, an engine
that differs only in its previously stored packet returns as well, with the same boolean,
the same stored packet and the same world. The stored packet is either the masked value
`value & (msb - 1)` of one complete 29-sample attempt, holding the 29 levels sampled
last (when `true` is returned), or 0 (when `false` is returned). -/
theorem C10_no_stale (c : Caliper) (v1 v2 fuel : Nat) (s : Sim) (out : Outcome)
    (h : ({ c with m_packet := v1 } : Caliper).update fuel s = some out) :
    ({ c with m_packet := v2 } : Caliper).update fuel s = some out ∧
    ((out.ok = true ∧
        (∃ n k, n < fuel ∧ k < 4 ∧
          out.cal.getPacket
            = (sampleLoop 29 (afterOverrun^[k] (afterSync^[n + 1] s)) 0).1 &&& (msb - 1)) ∧
        ∀ i, out.cal.getPacket.testBit i
          = (decide (i < 29) && s.line.dataLow (out.sim.dpos - 29 + i))) ∨
      (out.ok = false ∧ out.cal.getPacket = 0)) := by
  obtain ⟨n, hn, hsync, hout⟩ := update_some _ fuel s out h
  refine ⟨?_, ?_⟩
  · rw [update_of_sync _ fuel s _ _ hsync, hout, retryLoop_old_packet 4 c v1 v2]
  · rcases retryLoop_cases 4 { c with m_packet := v1 } (afterSync^[n + 1] s) (highEnd s n)
      with ⟨-, hf⟩ | ⟨k, hk, -, -, ha⟩
    · right
      rw [hout, hf]
      exact ⟨rfl, rfl⟩
    · left
      have hok : out.ok = true := by rw [hout, ha]
      refine ⟨hok, ⟨n, k, hn, hk, ?_⟩, fun i => update_true_testBit _ fuel s out h hok i⟩
      rw [hout, ha]
      rfl

/-- Witness of C10 on `retryLine`, for engines holding 74565 and 0 before the call. -/
theorem C10_no_stale_witness :
    ∃ out, ({ Caliper.new 2 3 with m_packet := 74565 } : Caliper).update 1
        (Sim.start retryLine) = some out ∧
      ({ Caliper.new 2 3 with m_packet := 0 } : Caliper).update 1 (Sim.start retryLine)
        = some out ∧
      ((out.ok = true ∧
          (∃ n k, n < 1 ∧ k < 4 ∧
            out.cal.getPacket
              = (sampleLoop 29 (afterOverrun^[k] (afterSync^[n + 1] (Sim.start retryLine)))
                  0).1 &&& (msb - 1)) ∧
          ∀ i, out.cal.getPacket.testBit i
            = (decide (i < 29) &&
                (Sim.start retryLine).line.dataLow (out.sim.dpos - 29 + i))) ∨
        (out.ok = false ∧ out.cal.getPacket = 0)) :=
  ⟨_, rfl, C10_no_stale (Caliper.new 2 3) 74565 0 1 (Sim.start retryLine) _ rfl⟩

/-! ## Timestamps that wrap -/

/-- Subtracting a `uint32_t` timestamp from the one taken `d` microseconds later gives
`d`, also when the counter wrapped in between. -/
theorem sub32_wrap (a d : Nat) (ha : a < 2 ^ 32) (hd : d < 2 ^ 32) :
    sub32 ((a + d) % 2 ^ 32) a = d := by
  unfold sub32
  omega

/-- C11: timestamp wraparound. With `micros()` a 32-bit counter, let a high-period start
at reading `T0` and end at reading `T1 = (T0 + d) mod 2 ^ 32` for a true duration
`d < 2 ^ 32`: the synchronisation test takes `T1 - T0` to be `d` and leaves the loop
exactly when `d >= 800`. Likewise, for an attempt with start-of-packet timestamp `S`
and end reading `E = (S + e) mod 2 ^ 32` for a true duration `e < 2 ^ 32`, the elapsed
time is `e` and the attempt is accepted exactly when `e < 900`. For `T0 = 2 ^ 32 - 100` and `T1 = 700` the difference
is 800. -/
theorem C11_wraparound (c : Caliper) (s a : Sim) (fuel n T0 S d e : Nat)
    (hd : d < 2 ^ 32) (he : e < 2 ^ 32)
    (hT0 : highStart s 0 = T0) (hT1 : highEnd s 0 = (T0 + d) % 2 ^ 32)
    (hS : S < 2 ^ 32) (hE : reading a a.tpos = (S + e) % 2 ^ 32) :
    highPeriod s 0 = d ∧
    (syncLoop (fuel + 1) s =
      if 800 ≤ d then some (highEnd s 0, afterSync s) else syncLoop fuel (afterSync s)) ∧
    attemptElapsed a S 0 = e ∧
    (retryLoop (n + 1) c a S =
      if e < 900 then
        { ok := true, cal := { c with m_packet := (sampleLoop 29 a 0).1 &&& (msb - 1) },
          sim := (sampleLoop 29 a 0).2.micros.2 }
      else retryLoop n c (afterOverrun a) (reading a (a.tpos + 1))) ∧
    sub32 700 (2 ^ 32 - 100) = 800 := by
  have h0 : T0 < 2 ^ 32 := by
    rw [← hT0]
    exact Nat.mod_lt _ (by decide)
  have hp : highPeriod s 0 = d := by
    unfold highPeriod
    rw [hT1, hT0]
    exact sub32_wrap T0 d h0 hd
  have hel : attemptElapsed a S 0 = e := by
    rw [attemptElapsed_zero, hE]
    exact sub32_wrap S e hS he
  refine ⟨hp, ?_, hel, ?_, by decide⟩
  · rw [syncLoop_succ, hp]
    by_cases h : 800 ≤ d
    · rw [if_neg (Nat.not_lt.mpr h), if_pos h]
    · rw [if_pos (Nat.lt_of_not_le h), if_neg h]
  · by_cases h : e < 900
    · rw [if_pos h]
      exact retryLoop_accept n c a S (by rw [← attemptElapsed_zero, hel]; exact h)
    · rw [if_neg h]
      exact retryLoop_overrun n c a S
        (by rw [← attemptElapsed_zero, hel]; exact Nat.le_of_not_lt h)

/-- Witness of C11: on `wrapLine` the counter wraps between `T0 = 2 ^ 32 - 100` and
`T1 = 700` and the loop leaves at once; on `wrapAttemptLine` it wraps during the first
attempt, which is accepted with 880 us. -/
theorem C11_wraparound_witness :
    highPeriod (Sim.start wrapLine) 0 = 800 ∧
    (syncLoop (0 + 1) (Sim.start wrapLine) =
      if 800 ≤ 800 then some (highEnd (Sim.start wrapLine) 0, afterSync (Sim.start wrapLine))
      else syncLoop 0 (afterSync (Sim.start wrapLine))) ∧
    attemptElapsed (afterSync (Sim.start wrapAttemptLine)) (2 ^ 32 - 500) 0 = 880 :=
  ⟨(C11_wraparound (Caliper.new 2 3) (Sim.start wrapLine)
      (afterSync (Sim.start wrapAttemptLine)) 0 3 (2 ^ 32 - 100) (2 ^ 32 - 500) 800 880
      (by decide) (by decide) (by decide) (by decide) (by decide) (by decide)).1,
    (C11_wraparound (Caliper.new 2 3) (Sim.start wrapLine)
      (afterSync (Sim.start wrapAttemptLine)) 0 3 (2 ^ 32 - 100) (2 ^ 32 - 500) 800 880
      (by decide) (by decide) (by decide) (by decide) (by decide) (by decide)).2.1,
    (C11_wraparound (Caliper.new 2 3) (Sim.start wrapLine)
      (afterSync (Sim.start wrapAttemptLine)) 0 3 (2 ^ 32 - 100) (2 ^ 32 - 500) 800 880
      (by decide) (by decide) (by decide) (by decide) (by decide) (by decide)).2.2.1⟩

/-! ## The timing reference of an attempt -/

/-- The effects of one overrunning attempt, newest first: the end-of-sampling reading,
`delay(10)`, `waitLow()` and then the reading that restarts the timing. -/
theorem afterOverrun_log (s : Sim) :
    (afterOverrun s).log =
      Event.micros (reading s (s.tpos + 1)) :: Event.waitLow :: Event.delay 10 ::
        Event.micros (reading s s.tpos) :: (sampleLoop 29 s 0).2.log := by
  simp [afterOverrun, Sim.micros, Sim.delay, Sim.waitLow, reading]

/-- The retry loop at attempt `j`, when all earlier attempts overran: the test compares
the end reading with the start-of-packet reference of that attempt. -/
theorem retryLoop_at (n j : Nat) (c : Caliper) (s : Sim) (t : Nat)
    (hover : ∀ i, i < j → 900 ≤ attemptElapsed s t i) :
    retryLoop (j + (n + 1)) c s t =
      if sub32 (reading s (s.tpos + 2 * j)) (attemptStart s t j) < 900 then
        { ok := true,
          cal := { c with m_packet := (sampleLoop 29 (afterOverrun^[j] s) 0).1 &&& (msb - 1) },
          sim := (sampleLoop 29 (afterOverrun^[j] s) 0).2.micros.2 }
      else retryLoop n c (afterOverrun^[j + 1] s) (reading s (s.tpos + 2 * j + 1)) := by
  have hr : reading (afterOverrun^[j] s) (afterOverrun^[j] s).tpos
      = reading s (s.tpos + 2 * j) := by
    simp only [reading, iterate_afterOverrun_line, iterate_afterOverrun_tpos]
  have hr1 : reading (afterOverrun^[j] s) ((afterOverrun^[j] s).tpos + 1)
      = reading s (s.tpos + 2 * j + 1) := by
    simp only [reading, iterate_afterOverrun_line, iterate_afterOverrun_tpos]
  rw [retryLoop_overruns j (n + 1) c s t hover]
  by_cases h : sub32 (reading s (s.tpos + 2 * j)) (attemptStart s t j) < 900
  · rw [if_pos h]
    exact retryLoop_accept n c _ _ (by rw [hr]; exact h)
  · rw [if_neg h, retryLoop_overrun n c _ _ (by rw [hr]; exact Nat.le_of_not_lt h), hr1,
      Function.iterate_succ_apply']

/-- C12: timing reference of each attempt. After synchronisation `update()` runs the
retry loop with the `T1` of the qualifying high-period as start-of-packet timestamp.
When the attempts before attempt `j` (counted from 0) all overran, the elapsed time
tested for attempt `j` is its end reading minus `T1` for `j = 0`, and for `j` in 1..3
minus the reading taken immediately after the recovery `waitLow()` that follows the
previous overrun (the newest three effects at the start of the attempt are `delay(10)`,
`waitLow()` and that reading). From the second attempt on the outcome does not depend on
the original `T1`. -/
theorem C12_timing_reference (c : Caliper) (fuel : Nat) (s s1 : Sim) (T1 j : Nat)
    (hsync : syncLoop fuel s = some (T1, s1)) (hj : j < 4)
    (hover : ∀ i, i < j → 900 ≤ attemptElapsed s1 T1 i) :
    (∃ n, n < fuel ∧ (∀ m, m < n → highPeriod s m < 800) ∧ 800 ≤ highPeriod s n ∧
      T1 = highEnd s n ∧ s1 = afterSync^[n + 1] s) ∧
    c.update fuel s = some (retryLoop 4 c s1 T1) ∧
    (retryLoop 4 c s1 T1 =
      if sub32 (reading s1 (s1.tpos + 2 * j))
          (if j = 0 then T1 else reading s1 (s1.tpos + 2 * j - 1)) < 900 then
        { ok := true,
          cal := { c with
            m_packet := (sampleLoop 29 (afterOverrun^[j] s1) 0).1 &&& (msb - 1) },
          sim := (sampleLoop 29 (afterOverrun^[j] s1) 0).2.micros.2 }
      else retryLoop (3 - j) c (afterOverrun^[j + 1] s1) (reading s1 (s1.tpos + 2 * j + 1))) ∧
    (0 < j → ∃ rest, (afterOverrun^[j] s1).log =
      Event.micros (reading s1 (s1.tpos + 2 * j - 1)) :: Event.waitLow :: Event.delay 10
        :: rest) ∧
    (0 < j → ∀ T, 900 ≤ attemptElapsed s1 T 0 → retryLoop 4 c s1 T = retryLoop 4 c s1 T1) := by
  refine ⟨syncLoop_some fuel s s1 T1 hsync, update_of_sync c fuel s s1 T1 hsync, ?_, ?_, ?_⟩
  · have e : 4 = j + ((3 - j) + 1) := by omega
    have h := retryLoop_at (3 - j) j c s1 T1 hover
    rw [← e] at h
    exact h
  · intro hpos
    obtain ⟨i, rfl⟩ : ∃ i, j = i + 1 := ⟨j - 1, by omega⟩
    refine ⟨Event.micros (reading (afterOverrun^[i] s1) (afterOverrun^[i] s1).tpos) ::
      (sampleLoop 29 (afterOverrun^[i] s1) 0).2.log, ?_⟩
    rw [Function.iterate_succ_apply', afterOverrun_log]
    have e : s1.tpos + 2 * (i + 1) - 1 = s1.tpos + 2 * i + 1 := by omega
    simp only [reading, iterate_afterOverrun_line, iterate_afterOverrun_tpos, e]
  · intro hpos T hT
    have h0 : 900 ≤ sub32 (reading s1 s1.tpos) T1 := by
      rw [← attemptElapsed_zero]
      exact hover 0 hpos
    have hT0 : 900 ≤ sub32 (reading s1 s1.tpos) T := by
      rw [← attemptElapsed_zero]
      exact hT
    rw [retryLoop_overrun 3 c s1 T hT0, retryLoop_overrun 3 c s1 T1 h0]

/-- Witness of C12 on `retryLine`: the first attempt is timed from `T1 = 800` (950 us,
overrun), the second one from the reading 12000 taken after the recovery `waitLow()`. -/
theorem C12_timing_reference_witness :
    reading (afterSync (Sim.start retryLine)) ((afterSync (Sim.start retryLine)).tpos + 2 * 1 - 1)
      = 12000 ∧
    (retryLoop 4 (Caliper.new 2 3) (afterSync (Sim.start retryLine)) 800).ok = true ∧
    (0 < 1 → ∃ rest, (afterOverrun^[1] (afterSync (Sim.start retryLine))).log =
      Event.micros (reading (afterSync (Sim.start retryLine))
          ((afterSync (Sim.start retryLine)).tpos + 2 * 1 - 1))
        :: Event.waitLow :: Event.delay 10 :: rest) :=
  ⟨rfl, rfl,
    (C12_timing_reference (Caliper.new 2 3) 1 (Sim.start retryLine)
      (afterSync (Sim.start retryLine)) 800 1 rfl (by decide) (by decide)).2.2.2.1⟩

/-! ## Counting the work of the retry loop -/

theorem sampleLoop_count_waitLow (n : Nat) (s : Sim) (v : Nat) :
    (sampleLoop n s v).2.log.count Event.waitLow = s.log.count Event.waitLow := by
  induction n generalizing s v with
  | zero => rfl
  | succ n ih =>
    rw [sampleLoop_succ, ih]
    simp [Sim.isLow, Sim.waitRisingEdge]

theorem afterOverrun_lowWaits (s : Sim) : lowWaits (afterOverrun s) = lowWaits s + 1 := by
  simp [lowWaits, afterOverrun, Sim.micros, Sim.delay, Sim.waitLow, sampleLoop_count_waitLow]

theorem iterate_afterOverrun_lowWaits (k : Nat) (s : Sim) :
    lowWaits (afterOverrun^[k] s) = lowWaits s + k := by
  induction k generalizing s with
  | zero => rfl
  | succ k ih => rw [Function.iterate_succ_apply, ih, afterOverrun_lowWaits]; omega

theorem accepted_lowWaits (s : Sim) (k : Nat) :
    lowWaits (sampleLoop 29 (afterOverrun^[k] s) 0).2.micros.2 = lowWaits s + k := by
  rw [← iterate_afterOverrun_lowWaits k s]
  simp [lowWaits, Sim.micros, sampleLoop_count_waitLow]

/-- C13: bounded work after synchronisation. Once the synchronisation loop has exited
(world `s1`, start-of-packet timestamp `t`), `update()` returns after `a` sampling
attempts with `1 <= a <= 4`: it has waited for `29 * a <= 116` rising edges, called
`delay(10)` at most 4 times and the recovery `waitLow()` at most 4 times. When all 4
attempts overrun it returns `false` and the three counts are exactly 116, 4 and 4: the
last effects before the failure is reported are `delay(10)`, `waitLow()` and a reading
of `micros()`. -/
theorem C13_bounded_work (c : Caliper) (fuel : Nat) (s s1 : Sim) (t : Nat)
    (hsync : syncLoop fuel s = some (t, s1)) :
    ∃ out, c.update fuel s = some out ∧
      (∃ a, 1 ≤ a ∧ a ≤ 4 ∧ risingEdges out.sim = risingEdges s1 + 29 * a ∧
        out.sim.dpos = s1.dpos + 29 * a) ∧
      risingEdges out.sim ≤ risingEdges s1 + 4 * 29 ∧
      delays out.sim ≤ delays s1 + 4 ∧
      lowWaits out.sim ≤ lowWaits s1 + 4 ∧
      ((∀ j, j < 4 → 900 ≤ attemptElapsed s1 t j) →
        out.ok = false ∧
        risingEdges out.sim = risingEdges s1 + 116 ∧
        delays out.sim = delays s1 + 4 ∧
        lowWaits out.sim = lowWaits s1 + 4 ∧
        ∃ rest, out.sim.log =
          Event.micros (reading s1 (s1.tpos + 7)) :: Event.waitLow :: Event.delay 10
            :: rest) := by
  refine ⟨retryLoop 4 c s1 t, update_of_sync c fuel s s1 t hsync, ?_⟩
  rcases retryLoop_cases 4 c s1 t with ⟨-, hf⟩ | ⟨k, hk, -, hlt, ha⟩
  · have hsim : (retryLoop 4 c s1 t).sim = afterOverrun^[4] s1 := by rw [hf]
    have hr : risingEdges (retryLoop 4 c s1 t).sim = risingEdges s1 + 29 * 4 := by
      rw [hsim, iterate_afterOverrun_risingEdges]
    have hd : delays (retryLoop 4 c s1 t).sim = delays s1 + 4 := by
      rw [hsim, iterate_afterOverrun_delays]
    have hw : lowWaits (retryLoop 4 c s1 t).sim = lowWaits s1 + 4 := by
      rw [hsim, iterate_afterOverrun_lowWaits]
    have hp : (retryLoop 4 c s1 t).sim.dpos = s1.dpos + 29 * 4 := by
      rw [hsim, iterate_afterOverrun_dpos]
    refine ⟨⟨4, by decide, by decide, hr, hp⟩, by omega, by omega, by omega, ?_⟩
    intro _
    refine ⟨by rw [hf], by omega, hd, hw,
      Event.micros (reading (afterOverrun^[3] s1) (afterOverrun^[3] s1).tpos) ::
        (sampleLoop 29 (afterOverrun^[3] s1) 0).2.log, ?_⟩
    rw [hsim, Function.iterate_succ_apply' (n := 3), afterOverrun_log]
    simp only [reading, iterate_afterOverrun_line, iterate_afterOverrun_tpos]
  · have hsim : (retryLoop 4 c s1 t).sim
        = (sampleLoop 29 (afterOverrun^[k] s1) 0).2.micros.2 := by rw [ha]
    have hr : risingEdges (retryLoop 4 c s1 t).sim = risingEdges s1 + 29 * (k + 1) := by
      rw [hsim, accepted_risingEdges]
    have hd : delays (retryLoop 4 c s1 t).sim = delays s1 + k := by
      rw [hsim, accepted_delays]
    have hw : lowWaits (retryLoop 4 c s1 t).sim = lowWaits s1 + k := by
      rw [hsim, accepted_lowWaits]
    have hp : (retryLoop 4 c s1 t).sim.dpos = s1.dpos + 29 * (k + 1) := by
      rw [hsim]
      simp [Sim.micros]
      omega
    refine ⟨⟨k + 1, by omega, by omega, hr, hp⟩, by omega, by omega, by omega, ?_⟩
    intro hall
    exact absurd (hall k hk) (Nat.not_le.mpr hlt)

/-- Witness of C13 on `slowLine`, where all four attempts overrun. -/
theorem C13_bounded_work_witness :
    ∃ out, (Caliper.new 2 3).update 1 (Sim.start slowLine) = some out ∧
      out.ok = false ∧
      risingEdges out.sim = risingEdges (afterSync (Sim.start slowLine)) + 116 ∧
      delays out.sim = delays (afterSync (Sim.start slowLine)) + 4 ∧
      lowWaits out.sim = lowWaits (afterSync (Sim.start slowLine)) + 4 := by
  obtain ⟨out, hout, -, -, -, -, hall⟩ :=
    C13_bounded_work (Caliper.new 2 3) 1 (Sim.start slowLine)
      (afterSync (Sim.start slowLine)) 1000 rfl
  obtain ⟨hok, hr, hd, hw, -⟩ := hall (by decide)
  exact ⟨out, hout, hok, hr, hd, hw⟩

/-! ## The half flag and the zero packet -/

/-- C14: `isHalf()` is not guarded by the unit flag. For every stored packet `isHalf()`
is bit 25 of the packet; for every packet with the metric bit 26 set, `isMetric()` is
true, `isInch()` is false and `isHalf()` is still bit 25; and the packet with bits 25
and 26 set has `isHalf()` and `isMetric()` both true and `isInch()` false. -/
theorem C14_half_unguarded (c : Caliper) (p q v : Nat) :
    c.isHalf = c.getPacket.testBit 25 ∧
    (({ m_clockPin := p, m_dataPin := q, m_packet := v ||| 1 <<< 26 } : Caliper).isMetric
        = true ∧
      ({ m_clockPin := p, m_dataPin := q, m_packet := v ||| 1 <<< 26 } : Caliper).isInch
        = false ∧
      ({ m_clockPin := p, m_dataPin := q, m_packet := v ||| 1 <<< 26 } : Caliper).isHalf
        = v.testBit 25) ∧
    (∃ b : Caliper, b.getPacket.testBit 25 = true ∧ b.getPacket.testBit 26 = true ∧
      b.isHalf = true ∧ b.isMetric = true ∧ b.isInch = false) := by
  have hm : ({ m_clockPin := p, m_dataPin := q, m_packet := v ||| 1 <<< 26 } : Caliper).isMetric
      = true := by
    rw [isMetric_eq]
    show (v ||| 1 <<< 26).testBit 26 = true
    rw [Nat.testBit_or, Nat.one_shiftLeft, Nat.testBit_two_pow_self, Bool.or_true]
  refine ⟨isHalf_eq c, ⟨hm, ?_, ?_⟩,
    ⟨{ m_clockPin := 2, m_dataPin := 3, m_packet := 1 <<< 25 ||| 1 <<< 26 },
      by decide, by decide, by decide, by decide, by decide⟩⟩
  · show (!({ m_clockPin := p, m_dataPin := q, m_packet := v ||| 1 <<< 26 } : Caliper).isMetric)
      = false
    rw [hm]
    rfl
  · rw [isHalf_eq]
    show (v ||| 1 <<< 26).testBit 25 = v.testBit 25
    rw [Nat.testBit_or, Nat.one_shiftLeft, Nat.testBit_two_pow_of_ne (by decide),
      Bool.or_false]

/-- How the decoder reads an engine that holds packet 0. -/
theorem decode_zero (c : Caliper) (h : c.getPacket = 0) :
    c.getDigitsBCD = 0 ∧ c.isNegative = false ∧ c.isMetric = false ∧ c.isInch = true ∧
      c.isHalf = false := by
  have hm : c.isMetric = false := by rw [isMetric_eq, h, Nat.zero_testBit]
  have hp : c.m_packet = 0 := h
  refine ⟨?_, ?_, hm, ?_, ?_⟩
  · show c.m_packet &&& 0xFFFFF = 0
    rw [hp]
    exact Nat.zero_and _
  · rw [isNegative_eq, h, Nat.zero_testBit]
  · show (!c.isMetric) = true
    rw [hm]
    rfl
  · rw [isHalf_eq, h, Nat.zero_testBit]

/-- A call of `update()` that returns `false` leaves the engine with packet 0. -/
theorem update_false_cal (c : Caliper) (fuel : Nat) (s : Sim) (out : Outcome)
    (h : c.update fuel s = some out) (hfail : out.ok = false) :
    out.cal = { c with m_packet := 0 } := by
  obtain ⟨n, -, -, hout⟩ := update_some c fuel s out h
  rcases retryLoop_cases 4 c (afterSync^[n + 1] s) (highEnd s n) with
    ⟨-, hf⟩ | ⟨k, -, -, -, ha⟩
  · rw [hout, hf]
  · rw [hout, ha] at hfail
    exact absurd hfail (by simp)

/-- C15: the zero packet does not identify failure. A freshly constructed engine and an
engine whose `update()` returned `false` both hold packet 0 and decode it as digits 0,
not negative, not metric, inch, not half; and on `highLine` (data line high on all 29
sampled edges, 880 us elapsed) `update()` returns `true` and stores the same packet 0,
so the two outcomes differ in the boolean result only. -/
theorem C15_zero_packet (p q : Nat) (c : Caliper) (fuel : Nat) (s : Sim) (out : Outcome)
    (h : c.update fuel s = some out) (hfail : out.ok = false) :
    ((Caliper.new p q).getPacket = 0 ∧ (Caliper.new p q).getDigitsBCD = 0 ∧
      (Caliper.new p q).isNegative = false ∧ (Caliper.new p q).isMetric = false ∧
      (Caliper.new p q).isInch = true ∧ (Caliper.new p q).isHalf = false) ∧
    (out.cal.getPacket = 0 ∧ out.cal.getDigitsBCD = 0 ∧ out.cal.isNegative = false ∧
      out.cal.isMetric = false ∧ out.cal.isInch = true ∧ out.cal.isHalf = false) ∧
    (∃ good, c.update 1 (Sim.start highLine) = some good ∧ good.ok = true ∧
      (∀ i, i < 29 → attemptLow (afterSync (Sim.start highLine)) 0 i = false) ∧
      attemptElapsed (afterSync (Sim.start highLine)) 1800 0 < 900 ∧
      good.cal.getPacket = 0 ∧ good.cal = out.cal ∧ good.ok ≠ out.ok) := by
  have hcal := update_false_cal c fuel s out h hfail
  have hz : out.cal.getPacket = 0 := by rw [hcal]; rfl
  refine ⟨⟨rfl, decode_zero (Caliper.new p q) rfl⟩, ⟨hz, decode_zero out.cal hz⟩, ?_⟩
  · refine ⟨retryLoop 4 c (afterSync (Sim.start highLine)) 1800, rfl, rfl,
      fun _ _ => rfl, by decide, rfl, ?_, ?_⟩
    · rw [hcal]
      rfl
    · rw [hfail]
      exact fun hne => Bool.noConfusion hne

/-- Witness of C15: the failing call is the one on `slowLine`, by an engine that held a
nonzero packet. -/
theorem C15_zero_packet_witness :
    ∃ out good, ({ m_clockPin := 2, m_dataPin := 3, m_packet := 74565 } : Caliper).update 1
        (Sim.start slowLine) = some out ∧ out.ok = false ∧ out.cal.getPacket = 0 ∧
      ({ m_clockPin := 2, m_dataPin := 3, m_packet := 74565 } : Caliper).update 1
        (Sim.start highLine) = some good ∧ good.ok = true ∧ good.cal.getPacket = 0 := by
  obtain ⟨-, ⟨hz, -⟩, good, hgood, hok, -, -, hp, -⟩ :=
    C15_zero_packet 2 3 { m_clockPin := 2, m_dataPin := 3, m_packet := 74565 } 1
      (Sim.start slowLine) _ rfl rfl
  exact ⟨_, good, rfl, rfl, hz, hgood, hok, hp⟩

/-! ## The accumulator of the sampling loop -/

/-- The last of `j + 1` iterations, singled out: it inserts the level of edge `j` into
the value left by the first `j` iterations and shifts. -/
theorem sampleLoop_succ_last (j : Nat) (s : Sim) (v : Nat) :
    (sampleLoop (j + 1) s v).1 =
      (if s.line.dataLow (s.dpos + j) then (sampleLoop j s v).1 ||| msb
        else (sampleLoop j s v).1) >>> 1 := by
  induction j generalizing s v with
  | zero => rfl
  | succ j ih =>
    rw [sampleLoop_succ (j + 1), ih, sampleLoop_succ j]
    have hl : s.waitRisingEdge.isLow.2.line = s.line := rfl
    have hd : s.waitRisingEdge.isLow.2.dpos + j = s.dpos + (j + 1) := by
      show s.dpos + 1 + j = s.dpos + (j + 1)
      omega
    rw [hl, hd]

/-- Started from 0, the accumulator stays below `2 ^ 29`. -/
theorem sampleLoop_lt (j : Nat) (s : Sim) : (sampleLoop j s 0).1 < 2 ^ 29 := by
  apply Nat.lt_pow_two_of_testBit
  intro i hi
  have h29 : ¬ i < 29 := by omega
  rw [sampleLoop_testBit]
  simp [h29]

/-- C16: accumulator invariant of the sampling loop. With `msb = 2 ^ 29` and `value`
starting at 0, after `j` iterations (`j <= 29`) the accumulator is below `2 ^ 29`, its
bits below position `29 - j` are all zero, and the sample taken in iteration `m < j`
sits at bit `29 - j + m`. Hence in the next iteration the value before the shift is
below `2 ^ 32` and has bit 0 clear, so the shift drops no set bit. -/
theorem C16_accumulator (s : Sim) (j : Nat) (hj : j ≤ 29) :
    msb = 2 ^ 29 ∧
    (sampleLoop j s 0).1 < 2 ^ 29 ∧
    (∀ i, i < 29 - j → (sampleLoop j s 0).1.testBit i = false) ∧
    (∀ m, m < j → (sampleLoop j s 0).1.testBit (29 - j + m) = s.line.dataLow (s.dpos + m)) ∧
    (j < 29 →
      (sampleLoop (j + 1) s 0).1 =
        (if s.line.dataLow (s.dpos + j) then (sampleLoop j s 0).1 ||| msb
          else (sampleLoop j s 0).1) >>> 1 ∧
      (if s.line.dataLow (s.dpos + j) then (sampleLoop j s 0).1 ||| msb
        else (sampleLoop j s 0).1) < 2 ^ 32 ∧
      (if s.line.dataLow (s.dpos + j) then (sampleLoop j s 0).1 ||| msb
        else (sampleLoop j s 0).1).testBit 0 = false ∧
      (if s.line.dataLow (s.dpos + j) then (sampleLoop j s 0).1 ||| msb
        else (sampleLoop j s 0).1) = 2 * (sampleLoop (j + 1) s 0).1) := by
  have hlow : ∀ i, i < 29 - j → (sampleLoop j s 0).1.testBit i = false := by
    intro i hi
    have h : ¬ 29 ≤ i + j := by omega
    rw [sampleLoop_testBit]
    simp [h]
  refine ⟨msb_eq, sampleLoop_lt j s, hlow, ?_, ?_⟩
  · intro m hm
    have h1 : 29 ≤ 29 - j + m + j := by omega
    have h2 : 29 - j + m < 29 := by omega
    have h3 : 29 - j + m + j - 29 = m := by omega
    rw [sampleLoop_testBit]
    simp [h1, h2, h3]
  · intro hlt
    have hv := sampleLoop_lt j s
    have hv0 : (sampleLoop j s 0).1.testBit 0 = false := hlow 0 (by omega)
    have hm0 : msb.testBit 0 = false := by rw [testBit_msb]; rfl
    have hmlt : msb < 2 ^ 30 := by decide
    have hw : (if s.line.dataLow (s.dpos + j) then (sampleLoop j s 0).1 ||| msb
        else (sampleLoop j s 0).1) < 2 ^ 30 := by
      split
      · exact Nat.or_lt_two_pow (Nat.lt_trans hv (by decide)) hmlt
      · exact Nat.lt_trans hv (by decide)
    have hb : (if s.line.dataLow (s.dpos + j) then (sampleLoop j s 0).1 ||| msb
        else (sampleLoop j s 0).1).testBit 0 = false := by
      split
      · rw [Nat.testBit_or, hv0, hm0]
        rfl
      · exact hv0
    refine ⟨sampleLoop_succ_last j s 0, Nat.lt_trans hw (by decide), hb, ?_⟩
    rw [sampleLoop_succ_last j s 0, Nat.shiftRight_succ, Nat.shiftRight_zero]
    rw [Nat.testBit_zero] at hb
    have hmod : ¬ (if s.line.dataLow (s.dpos + j) then (sampleLoop j s 0).1 ||| msb
        else (sampleLoop j s 0).1) % 2 = 1 := by
      intro h
      rw [h] at hb
      exact absurd hb (by decide)
    omega

/-- Witness of C16 on `retryLine` after 3 iterations: the samples low, high, low sit at
bits 26, 27, 28 and the accumulator is `2 ^ 26 + 2 ^ 28`. -/
theorem C16_accumulator_witness :
    (sampleLoop 3 (Sim.start retryLine) 0).1 = 2 ^ 26 + 2 ^ 28 ∧
    (sampleLoop 3 (Sim.start retryLine) 0).1 < 2 ^ 29 ∧
    (∀ i, i < 29 - 3 → (sampleLoop 3 (Sim.start retryLine) 0).1.testBit i = false) ∧
    (∀ m, m < 3 → (sampleLoop 3 (Sim.start retryLine) 0).1.testBit (29 - 3 + m)
      = (Sim.start retryLine).line.dataLow ((Sim.start retryLine).dpos + m)) :=
  ⟨rfl, (C16_accumulator (Sim.start retryLine) 3 (by decide)).2.1,
    (C16_accumulator (Sim.start retryLine) 3 (by decide)).2.2.1,
    (C16_accumulator (Sim.start retryLine) 3 (by decide)).2.2.2.1⟩

end Minidro
